import Mathlib

/-!
# Host programs of the Kerr black-hole visualiser

A shallow embedding of the three host programs `main.cpp`, `main_improved.cpp`
and `main_linux.cpp`: the interactive parameter state and its key handler, the
per-frame loop that feeds the compute kernel its uniforms, the start-up path
that loads the shader assets, and the still-frame (PPM) export.

The programs compute with C++ `float`.  A `float` is modelled as an IEEE-754
binary32 value with round-to-nearest-even arithmetic (`F32` below); console
output is not modelled.
-/

set_option maxRecDepth 20000

/-! ## IEEE-754 binary32 -/

/-- A binary32 value.  Every finite binary32 number is an integer multiple of the
smallest subnormal `2^-149`; `fin n` is the number `n * 2^-149`.  The two signed
zeros are identified (they compare equal in C++) and all NaNs are one value. -/
inductive F32 where
  | fin (n : ℤ)
  | pinf
  | ninf
  | nan
  deriving DecidableEq

namespace F32

/-- Floor of the binary logarithm, by halving (`fuel` bounds the recursion). -/
def log2Fuel : ℕ → ℕ → ℕ
  | 0, _ => 0
  | fuel + 1, n => if n < 2 then 0 else log2Fuel fuel (n / 2) + 1

/-- Floor of the binary logarithm of `n` (and `0` for `n = 0`). -/
def log2 (n : ℕ) : ℕ := log2Fuel n n

/-- The integer nearest to `a / d`, ties going to the even integer. -/
def rneDiv (a d : ℕ) : ℕ :=
  if 2 * (a % d) < d then a / d
  else if d < 2 * (a % d) then a / d + 1
  else if (a / d) % 2 = 0 then a / d else a / d + 1

/-- The nonnegative rational `a / d` (in units of `2^-149`) rounded to 24
significant bits, ties to even.  Below `2^24` units the grid is the integers,
which covers the subnormal range. -/
def roundNat (a d : ℕ) : ℕ :=
  rneDiv a (d * 2 ^ (log2 (a / d) - 23)) * 2 ^ (log2 (a / d) - 23)

/-- The largest finite binary32 number, `(2^24 - 1) * 2^104`, in units of `2^-149`. -/
def maxFinite : ℕ := (2 ^ 24 - 1) * 2 ^ 253

/-- The rational `num / den` (in units of `2^-149`) rounded to binary32; a result
beyond the largest finite number is an infinity. -/
def roundDiv (num : ℤ) (den : ℕ) : F32 :=
  if maxFinite < roundNat num.natAbs den then (if num < 0 then ninf else pinf)
  else fin (if num < 0 then -(roundNat num.natAbs den : ℤ) else roundNat num.natAbs den)

/-- A decimal literal `mantissa * 10^(±decimalExponent)` of the source, such as
`0.998f`, rounded to binary32. -/
def ofScientific (mantissa : ℕ) (exponentSign : Bool) (decimalExponent : ℕ) : F32 :=
  if exponentSign then roundDiv (mantissa * 2 ^ 149) (10 ^ decimalExponent)
  else roundDiv (mantissa * 10 ^ decimalExponent * 2 ^ 149) 1

instance : OfScientific F32 := ⟨ofScientific⟩

/-- Conversion of an integer to `float`. -/
def ofInt (i : ℤ) : F32 := roundDiv (i * 2 ^ 149) 1

/-- The C++ comparison `a < b` on floats (false when either side is a NaN). -/
def lt : F32 → F32 → Bool
  | fin a, fin b => decide (a < b)
  | fin _, pinf => true
  | ninf, fin _ => true
  | ninf, pinf => true
  | _, _ => false

/-- The C++ comparison `a <= b` on floats (false when either side is a NaN). -/
def le : F32 → F32 → Bool
  | fin a, fin b => decide (a ≤ b)
  | fin _, pinf => true
  | ninf, fin _ => true
  | ninf, pinf => true
  | pinf, pinf => true
  | ninf, ninf => true
  | _, _ => false

instance : LT F32 := ⟨fun a b => lt a b = true⟩

instance : LE F32 := ⟨fun a b => le a b = true⟩

instance (a b : F32) : Decidable (a < b) := inferInstanceAs (Decidable (lt a b = true))

instance (a b : F32) : Decidable (a ≤ b) := inferInstanceAs (Decidable (le a b = true))

/-- The function `std::max(a, b)`, which is `(a < b) ? b : a`. -/
def max (a b : F32) : F32 := if lt a b then b else a

/-- The function `std::min(a, b)`, which is `(b < a) ? b : a`. -/
def min (a b : F32) : F32 := if lt b a then b else a

/-- Float addition. -/
def add : F32 → F32 → F32
  | fin a, fin b => roundDiv (a + b) 1
  | nan, _ => nan
  | _, nan => nan
  | pinf, ninf => nan
  | ninf, pinf => nan
  | pinf, _ => pinf
  | _, pinf => pinf
  | ninf, _ => ninf
  | _, ninf => ninf

/-- Float negation. -/
def neg : F32 → F32
  | fin a => fin (-a)
  | pinf => ninf
  | ninf => pinf
  | nan => nan

/-- Float subtraction. -/
def sub (a b : F32) : F32 := add a (neg b)

/-- An infinity times `y`: the sign of `y` decides, and `inf * 0` is a NaN. -/
def infTimes (positive : Bool) (y : F32) : F32 :=
  if lt (fin 0) y then (if positive then pinf else ninf)
  else if lt y (fin 0) then (if positive then ninf else pinf)
  else nan

/-- Float multiplication. -/
def mul : F32 → F32 → F32
  | fin a, fin b => roundDiv (a * b) (2 ^ 149)
  | nan, _ => nan
  | _, nan => nan
  | pinf, y => infTimes true y
  | ninf, y => infTimes false y
  | x, pinf => infTimes true x
  | x, ninf => infTimes false x

/-- Float division.  A finite nonzero number divided by zero is an infinity whose
sign is that of the dividend (the zero is taken as `+0`). -/
def div : F32 → F32 → F32
  | fin a, fin b =>
      if b = 0 then (if a = 0 then nan else if 0 < a then pinf else ninf)
      else if 0 < b then roundDiv (a * 2 ^ 149) b.natAbs
      else roundDiv (-(a * 2 ^ 149)) b.natAbs
  | nan, _ => nan
  | _, nan => nan
  | fin _, _ => fin 0
  | pinf, fin b => if 0 ≤ b then pinf else ninf
  | ninf, fin b => if 0 ≤ b then ninf else pinf
  | _, _ => nan

instance : Add F32 := ⟨add⟩

instance : Sub F32 := ⟨sub⟩

instance : Mul F32 := ⟨mul⟩

instance : Div F32 := ⟨div⟩

/-- The exact rational value of a finite float. -/
def toRat : F32 → Option ℚ
  | fin n => some ((n : ℚ) / 2 ^ 149)
  | _ => none

/-- A finite float holds a number of the binary32 grid: its magnitude has at most
24 significant bits and does not exceed the largest finite number. -/
def Representable (n : ℤ) : Prop :=
  2 ^ (log2 n.natAbs - 23) ∣ n.natAbs ∧ n.natAbs ≤ maxFinite

instance (n : ℤ) : Decidable (Representable n) := by
  unfold Representable
  infer_instance

end F32


/-! ## Machine integers and SDL events -/

/-- A value of C++ `int` after an arithmetic operation: 32-bit two's complement. -/
def wrapInt (x : ℤ) : ℤ := (x + 2 ^ 31) % 2 ^ 32 - 2 ^ 31

/-- The function `std::max(a, b)` on `int`, which is `(a < b) ? b : a`. -/
def intMax (a b : ℤ) : ℤ := if a < b then b else a

/-- The function `std::min(a, b)` on `int`, which is `(b < a) ? b : a`. -/
def intMin (a b : ℤ) : ℤ := if b < a then b else a

/-- The key codes `event.key.keysym.sym` that the handlers distinguish; every other
key is `other`. -/
inductive SDL_Keycode where
  | SDLK_ESCAPE
  | SDLK_SPACE
  | SDLK_h
  | SDLK_UP
  | SDLK_DOWN
  | SDLK_a
  | SDLK_d
  | SDLK_w
  | SDLK_s
  | SDLK_q
  | SDLK_e
  | SDLK_1
  | SDLK_2
  | SDLK_3
  | SDLK_4
  | SDLK_b
  | SDLK_r
  | other
  deriving DecidableEq

/-- An `SDL_Event` as far as `handleInput` inspects it: its `type`, and for a key
press the key code. -/
inductive SDL_Event where
  | SDL_QUIT
  | SDL_KEYDOWN (sym : SDL_Keycode)
  | other
  deriving DecidableEq

/-- What one pass of the main loop receives from outside: the reading of
`SDL_GetTicks()` (a `Uint32`, in milliseconds) and the events `SDL_PollEvent`
hands out until its queue is empty. -/
structure FrameInput where
  ticks : ℕ
  events : List SDL_Event

/-- The file system as the shader loaders see it: the text of a file, or `none`
for a file that cannot be opened. -/
abbrev Files := String → Option String

/-- The work-group count `(n + 15) / 16` of `glDispatchCompute`, in `int` arithmetic. -/
def groupCount (n : ℤ) : ℤ := Int.tdiv (wrapInt (n + 15)) 16

/-! ## `main.cpp` -/

namespace Main

/-- Window width. -/
def WINDOW_WIDTH : ℤ := 1920

/-- Window height. -/
def WINDOW_HEIGHT : ℤ := 1080

/-- The global state of `main.cpp`, with its initial values. -/
structure AppState where
  time : F32 := 0.0
  spinParameter : F32 := 0.9
  exposure : F32 := 1.0
  inclination : F32 := 85.0
  cameraDistance : F32 := 25.0
  paused : Bool := false
  running : Bool := true
  deriving DecidableEq

/-- The global `state` at program start. -/
def state : AppState := {}

/-- The function `loadShaderSource`: the text of the file, or the empty string
when it cannot be opened. -/
def loadShaderSource (files : Files) (filepath : String) : String :=
  match files filepath with
  | none => ""
  | some text => text

/-- The function `handleInput`, as a transformer of the global state. -/
def handleInput (event : SDL_Event) (state : AppState) : AppState :=
  match event with
  | .SDL_QUIT => { state with running := false }
  | .SDL_KEYDOWN sym =>
    match sym with
    | .SDLK_ESCAPE => { state with running := false }
    | .SDLK_SPACE => { state with paused := !state.paused }
    | .SDLK_UP => { state with exposure := state.exposure * 1.1 }
    | .SDLK_DOWN => { state with exposure := state.exposure / 1.1 }
    | .SDLK_a => { state with spinParameter := F32.max 0.0 (state.spinParameter - 0.05) }
    | .SDLK_d => { state with spinParameter := F32.min 0.998 (state.spinParameter + 0.05) }
    | .SDLK_w => { state with inclination := F32.min 89.9 (state.inclination + 2.0) }
    | .SDLK_s => { state with inclination := F32.max 0.1 (state.inclination - 2.0) }
    | .SDLK_q => { state with cameraDistance := F32.max 10.0 (state.cameraDistance - 1.0) }
    | .SDLK_e => { state with cameraDistance := F32.min 50.0 (state.cameraDistance + 1.0) }
    | _ => state
  | .other => state

/-- The state after a sequence of events has been handled in order (the loop
`while (SDL_PollEvent(&event)) handleInput(event);`). -/
def handleEvents (events : List SDL_Event) (state : AppState) : AppState :=
  events.foldl (fun s e => handleInput e s) state

/-- The uniforms of the compute program. -/
structure Uniforms where
  uTime : F32
  uSpinParameter : F32
  uExposure : F32
  uInclination : F32
  uCameraDistance : F32
  uResolution : F32 × F32
  deriving DecidableEq

/-- One compute dispatch: the uniforms set for it and the work-group counts. -/
structure Dispatch where
  uniforms : Uniforms
  groups : ℤ × ℤ × ℤ
  deriving DecidableEq

/-- The "dispatch compute shader" block of the main loop. -/
def dispatch (state : AppState) : Dispatch :=
  { uniforms :=
      { uTime := state.time
        uSpinParameter := state.spinParameter
        uExposure := state.exposure
        uInclination := state.inclination
        uCameraDistance := state.cameraDistance
        uResolution := (F32.ofInt WINDOW_WIDTH, F32.ofInt WINDOW_HEIGHT) }
    groups := (groupCount WINDOW_WIDTH, groupCount WINDOW_HEIGHT, 1) }

/-- The variables of `main` that live across passes of the main loop, next to the
global `state`. -/
structure LoopState where
  state : AppState
  lastTime : ℕ
  frameCount : ℤ
  fpsTimer : F32
  deriving DecidableEq

/-- The float `deltaTime = (currentTime - lastTime) / 1000.0f`; the difference is
taken in `Uint32`, so modulo `2^32`. -/
def deltaTime (currentTime lastTime : ℕ) : F32 :=
  F32.ofInt (((currentTime % 2 ^ 32 + 2 ^ 32 - lastTime % 2 ^ 32) % 2 ^ 32 : ℕ)) / 1000.0

/-- The clock update at the top of a pass: `if (!state.paused) state.time += deltaTime`. -/
def advance (dt : F32) (state : AppState) : AppState :=
  if !state.paused then { state with time := state.time + dt } else state

/-- One pass of the main loop body: clock update, FPS counter, input handling,
compute dispatch. -/
def frame (inp : FrameInput) (L : LoopState) : LoopState × Dispatch :=
  let dt := deltaTime inp.ticks L.lastTime
  let state1 := advance dt L.state
  let frameCount := wrapInt (L.frameCount + 1)
  let fpsTimer := L.fpsTimer + dt
  let state2 := handleEvents inp.events state1
  ({ state := state2
     lastTime := inp.ticks % 2 ^ 32
     frameCount := if (1.0 : F32) ≤ fpsTimer then 0 else frameCount
     fpsTimer := if (1.0 : F32) ≤ fpsTimer then 0.0 else fpsTimer },
   dispatch state2)

/-- The loop `while (state.running)`, run over the inputs of successive passes;
it yields the loop variables it ends with and the dispatches made, in order. -/
def mainLoop : List FrameInput → LoopState → LoopState × List Dispatch
  | [], L => (L, [])
  | inp :: rest, L =>
    if L.state.running then
      ((mainLoop rest (frame inp L).1).1, (frame inp L).2 :: (mainLoop rest (frame inp L).1).2)
    else (L, [])

/-- Everything outside the program that `main` depends on. -/
structure Env where
  /-- Whether `SDL_Init(SDL_INIT_VIDEO) >= 0`. -/
  sdlInit : Bool
  /-- Whether `SDL_CreateWindow` returned a window. -/
  window : Bool
  /-- Whether `SDL_GL_CreateContext` returned a context. -/
  context : Bool
  /-- Whether `glewInit() == GLEW_OK`. -/
  glew : Bool
  files : Files
  /-- The program id `createShaderProgram` returns, `0` on failure. -/
  createShaderProgram : String → String → ℕ
  /-- The program id `createComputeShader` returns, `0` on failure. -/
  createComputeShader : String → ℕ
  /-- The first reading of `SDL_GetTicks()`, taken before the loop. -/
  startTicks : ℕ
  frames : List FrameInput

/-- The outcome of `main`: the value it returns (`none` while the loop is still
running when the modelled inputs end) and the compute dispatches it made. -/
structure Result where
  exitCode : Option ℤ
  dispatches : List Dispatch

/-- The "load shaders" block of `main`: the three sources, or `none` when the
emptiness check sends `main` to `return -1`. -/
def loadShaders (files : Files) : Option (String × String × String) :=
  let vertSource := loadShaderSource files "shader.vert"
  let fragSource := loadShaderSource files "shader.frag"
  let compSource := loadShaderSource files "blackhole.comp"
  if vertSource = "" ∨ fragSource = "" ∨ compSource = "" then none
  else some (vertSource, fragSource, compSource)

/-- The function `main`. -/
def main (env : Env) : Result :=
  if !env.sdlInit then ⟨some (-1), []⟩
  else if !env.window then ⟨some (-1), []⟩
  else if !env.context then ⟨some (-1), []⟩
  else if !env.glew then ⟨some (-1), []⟩
  else
    match loadShaders env.files with
    | none => ⟨some (-1), []⟩
    | some (vertSource, fragSource, compSource) =>
      if env.createShaderProgram vertSource fragSource = 0
          ∨ env.createComputeShader compSource = 0 then ⟨some (-1), []⟩
      else
        let r := mainLoop env.frames
          { state := state, lastTime := env.startTicks % 2 ^ 32, frameCount := 0, fpsTimer := 0.0 }
        ⟨if r.1.state.running then none else some 0, r.2⟩

end Main

/-! ## `main_improved.cpp` -/

namespace Improved

/-- Window width. -/
def WINDOW_WIDTH : ℤ := 1920

/-- Window height. -/
def WINDOW_HEIGHT : ℤ := 1080

/-- The global state of `main_improved.cpp`, with its initial values. -/
structure AppState where
  time : F32 := 0.0
  spinParameter : F32 := 0.9
  exposure : F32 := 1.2
  inclination : F32 := 85.0
  cameraDistance : F32 := 25.0
  maxBounces : ℤ := 3
  bloomStrength : F32 := 0.5
  enableBloom : Bool := true
  paused : Bool := false
  running : Bool := true
  showHelp : Bool := false
  deriving DecidableEq

/-- The global `state` at program start. -/
def state : AppState := {}

/-- The function `loadShaderSource`: the text of the file, or the empty string
when it cannot be opened. -/
def loadShaderSource (files : Files) (filepath : String) : String :=
  match files filepath with
  | none => ""
  | some text => text

/-- The function `handleInput`, as a transformer of the global state. -/
def handleInput (event : SDL_Event) (state : AppState) : AppState :=
  match event with
  | .SDL_QUIT => { state with running := false }
  | .SDL_KEYDOWN sym =>
    match sym with
    | .SDLK_ESCAPE => { state with running := false }
    | .SDLK_SPACE => { state with paused := !state.paused }
    | .SDLK_h => { state with showHelp := !state.showHelp }
    | .SDLK_UP => { state with exposure := state.exposure * 1.1 }
    | .SDLK_DOWN => { state with exposure := state.exposure / 1.1 }
    | .SDLK_a => { state with spinParameter := F32.max 0.0 (state.spinParameter - 0.05) }
    | .SDLK_d => { state with spinParameter := F32.min 0.998 (state.spinParameter + 0.05) }
    | .SDLK_w => { state with inclination := F32.min 89.9 (state.inclination + 2.0) }
    | .SDLK_s => { state with inclination := F32.max 0.1 (state.inclination - 2.0) }
    | .SDLK_q => { state with cameraDistance := F32.max 10.0 (state.cameraDistance - 1.0) }
    | .SDLK_e => { state with cameraDistance := F32.min 50.0 (state.cameraDistance + 1.0) }
    | .SDLK_1 => { state with maxBounces := intMax 1 (wrapInt (state.maxBounces - 1)) }
    | .SDLK_2 => { state with maxBounces := intMin 5 (wrapInt (state.maxBounces + 1)) }
    | .SDLK_3 => { state with bloomStrength := F32.max 0.0 (state.bloomStrength - 0.1) }
    | .SDLK_4 => { state with bloomStrength := F32.min 2.0 (state.bloomStrength + 0.1) }
    | .SDLK_b => { state with enableBloom := !state.enableBloom }
    | .SDLK_r =>
      { state with
        spinParameter := 0.9
        exposure := 1.2
        inclination := 85.0
        cameraDistance := 25.0
        maxBounces := 3
        bloomStrength := 0.5 }
    | .other => state
  | .other => state

/-- The state after a sequence of events has been handled in order (the loop
`while (SDL_PollEvent(&event)) handleInput(event);`). -/
def handleEvents (events : List SDL_Event) (state : AppState) : AppState :=
  events.foldl (fun s e => handleInput e s) state

/-- The uniforms of the compute program. -/
structure Uniforms where
  uTime : F32
  uSpinParameter : F32
  uExposure : F32
  uInclination : F32
  uCameraDistance : F32
  uResolution : F32 × F32
  uMaxBounces : ℤ
  uBloomStrength : F32
  deriving DecidableEq

/-- One compute dispatch: the uniforms set for it and the work-group counts. -/
structure Dispatch where
  uniforms : Uniforms
  groups : ℤ × ℤ × ℤ
  deriving DecidableEq

/-- The "dispatch compute shader" block of the main loop. -/
def dispatch (state : AppState) : Dispatch :=
  { uniforms :=
      { uTime := state.time
        uSpinParameter := state.spinParameter
        uExposure := state.exposure
        uInclination := state.inclination
        uCameraDistance := state.cameraDistance
        uResolution := (F32.ofInt WINDOW_WIDTH, F32.ofInt WINDOW_HEIGHT)
        uMaxBounces := state.maxBounces
        uBloomStrength := if state.enableBloom then state.bloomStrength else 0.0 }
    groups := (groupCount WINDOW_WIDTH, groupCount WINDOW_HEIGHT, 1) }

/-- The variables of `main` that live across passes of the main loop, next to the
global `state`. -/
structure LoopState where
  state : AppState
  lastTime : ℕ
  frameCount : ℤ
  fpsTimer : F32
  deriving DecidableEq

/-- The float `deltaTime = (currentTime - lastTime) / 1000.0f`; the difference is
taken in `Uint32`, so modulo `2^32`. -/
def deltaTime (currentTime lastTime : ℕ) : F32 :=
  F32.ofInt (((currentTime % 2 ^ 32 + 2 ^ 32 - lastTime % 2 ^ 32) % 2 ^ 32 : ℕ)) / 1000.0

/-- The clock update at the top of a pass: `if (!state.paused) state.time += deltaTime`. -/
def advance (dt : F32) (state : AppState) : AppState :=
  if !state.paused then { state with time := state.time + dt } else state

/-- One pass of the main loop body: clock update, FPS counter, input handling,
compute dispatch. -/
def frame (inp : FrameInput) (L : LoopState) : LoopState × Dispatch :=
  let dt := deltaTime inp.ticks L.lastTime
  let state1 := advance dt L.state
  let frameCount := wrapInt (L.frameCount + 1)
  let fpsTimer := L.fpsTimer + dt
  let state2 := handleEvents inp.events state1
  ({ state := state2
     lastTime := inp.ticks % 2 ^ 32
     frameCount := if (1.0 : F32) ≤ fpsTimer then 0 else frameCount
     fpsTimer := if (1.0 : F32) ≤ fpsTimer then 0.0 else fpsTimer },
   dispatch state2)

/-- The loop `while (state.running)`, run over the inputs of successive passes;
it yields the loop variables it ends with and the dispatches made, in order. -/
def mainLoop : List FrameInput → LoopState → LoopState × List Dispatch
  | [], L => (L, [])
  | inp :: rest, L =>
    if L.state.running then
      ((mainLoop rest (frame inp L).1).1, (frame inp L).2 :: (mainLoop rest (frame inp L).1).2)
    else (L, [])

/-- Everything outside the program that `main` depends on. -/
structure Env where
  /-- Whether `SDL_Init(SDL_INIT_VIDEO) >= 0`. -/
  sdlInit : Bool
  /-- Whether `SDL_CreateWindow` returned a window. -/
  window : Bool
  /-- Whether `SDL_GL_CreateContext` returned a context. -/
  context : Bool
  /-- Whether `glewInit() == GLEW_OK`. -/
  glew : Bool
  /-- The flag `GLEW_ARB_compute_shader`. -/
  computeShaderSupport : Bool
  files : Files
  /-- The program id `createShaderProgram` returns, `0` on failure. -/
  createShaderProgram : String → String → ℕ
  /-- The program id `createComputeShader` returns, `0` on failure. -/
  createComputeShader : String → ℕ
  /-- The first reading of `SDL_GetTicks()`, taken before the loop. -/
  startTicks : ℕ
  frames : List FrameInput

/-- The outcome of `main`: the value it returns (`none` while the loop is still
running when the modelled inputs end) and the compute dispatches it made. -/
structure Result where
  exitCode : Option ℤ
  dispatches : List Dispatch

/-- The "load shaders" block of `main`: the improved compute shader is tried first
and the original one is the fallback; the result is the three sources, or `none`
when the emptiness check sends `main` to `return -1`. -/
def loadShaders (files : Files) : Option (String × String × String) :=
  let compSource :=
    if loadShaderSource files "blackhole_improved.comp" = "" then
      loadShaderSource files "blackhole.comp"
    else loadShaderSource files "blackhole_improved.comp"
  let vertSource := loadShaderSource files "shader.vert"
  let fragSource := loadShaderSource files "shader.frag"
  if vertSource = "" ∨ fragSource = "" ∨ compSource = "" then none
  else some (vertSource, fragSource, compSource)

/-- The function `main`. -/
def main (env : Env) : Result :=
  if !env.sdlInit then ⟨some (-1), []⟩
  else if !env.window then ⟨some (-1), []⟩
  else if !env.context then ⟨some (-1), []⟩
  else if !env.glew then ⟨some (-1), []⟩
  else if !env.computeShaderSupport then ⟨some (-1), []⟩
  else
    match loadShaders env.files with
    | none => ⟨some (-1), []⟩
    | some (vertSource, fragSource, compSource) =>
      if env.createShaderProgram vertSource fragSource = 0
          ∨ env.createComputeShader compSource = 0 then ⟨some (-1), []⟩
      else
        let r := mainLoop env.frames
          { state := state, lastTime := env.startTicks % 2 ^ 32, frameCount := 0, fpsTimer := 0.0 }
        ⟨if r.1.state.running then none else some 0, r.2⟩

end Improved

/-! ## `main_linux.cpp` -/

namespace Linux

/-- Image width. -/
def WIDTH : ℕ := 1920

/-- Image height. -/
def HEIGHT : ℕ := 1080

/-- The function `loadFile`: the text of the file, or the empty string when it
cannot be opened. -/
def loadFile (files : Files) (path : String) : String :=
  match files path with
  | none => ""
  | some text => text

/-- A heap array of floats, `new float[size]`, holding `data i` at index `i`. -/
structure Buffer where
  size : ℕ
  data : ℕ → F32

/-- The read `pixels[i]`; `none` is an access outside the array. -/
def Buffer.read (b : Buffer) (i : ℕ) : Option F32 :=
  if i < b.size then some (b.data i) else none

/-- The conversion `(unsigned char) x` of a float: truncation toward zero.  C++
leaves the conversion undefined when the truncated value is not in `0..255`;
modelled is what x86-64 compilers emit, a conversion to a 32-bit integer
(`0x80000000` when out of its range or NaN) of which the low byte is kept. -/
def toUChar : F32 → ℕ
  | .fin n =>
    if -(2 ^ 31) ≤ Int.tdiv n (2 ^ 149) ∧ Int.tdiv n (2 ^ 149) < 2 ^ 31 then
      (Int.tdiv n (2 ^ 149) % 256).toNat
    else 0
  | _ => 0

/-- The three bytes written for the pixel whose red float is at index `i`. -/
def pixelBytes (r g b : F32) : List ℕ :=
  [toUChar (r * F32.ofInt 255), toUChar (g * F32.ofInt 255), toUChar (b * F32.ofInt 255)]

/-- The loop `for (int i = 0; i < n; i += 4)` of the export, from index `i` on,
appending to the bytes `out` written so far; `none` if it reads outside `pixels`. -/
def writePixels (pixels : Buffer) (n : ℕ) (i : ℕ) (out : List ℕ) : Option (List ℕ) :=
  if i < n then
    match pixels.read i, pixels.read (i + 1), pixels.read (i + 2) with
    | some r, some g, some b => writePixels pixels n (i + 4) (out ++ pixelBytes r g b)
    | _, _, _ => none
  else some out
termination_by n - i

/-- The text written before the samples: `"P6\n" << WIDTH << " " << HEIGHT << "\n255\n"`. -/
def header : String :=
  "P6\n" ++ toString WIDTH ++ " " ++ toString HEIGHT ++ "\n255\n"

/-- The file `output.ppm`: the header text followed by the sample bytes. -/
structure PPM where
  header : String
  body : List ℕ

/-- The "save as PPM" block of `main`. -/
def savePPM (pixels : Buffer) : Option PPM :=
  match writePixels pixels (WIDTH * HEIGHT * 4) 0 [] with
  | some body => some { header := header, body := body }
  | none => none

/-- The uniforms of the compute program. -/
structure Uniforms where
  uTime : F32
  uSpinParameter : F32
  uExposure : F32
  uInclination : F32
  uCameraDistance : F32
  uResolution : F32 × F32
  deriving DecidableEq

/-- One compute dispatch: the uniforms set for it and the work-group counts. -/
structure Dispatch where
  uniforms : Uniforms
  groups : ℤ × ℤ × ℤ
  deriving DecidableEq

/-- The "render one frame" block of `main`. -/
def dispatch : Dispatch :=
  { uniforms :=
      { uTime := 0.0
        uSpinParameter := 0.9
        uExposure := 1.0
        uInclination := 85.0
        uCameraDistance := 25.0
        uResolution := (F32.ofInt WIDTH, F32.ofInt HEIGHT) }
    groups := (groupCount WIDTH, groupCount HEIGHT, 1) }

/-- Everything outside the program that `main` depends on. -/
structure Env where
  /-- Whether `XOpenDisplay` returned a display. -/
  display : Bool
  /-- Whether `glewInit() == GLEW_OK`. -/
  glew : Bool
  files : Files
  /-- The shader id `compileShader` returns, `0` on failure. -/
  compileShader : String → ℕ
  /-- The link status of the compute program. -/
  linkStatus : Bool
  /-- The floats `glGetTexImage` stores into `pixels`, by index. -/
  texImage : ℕ → F32

/-- The outcome of `main`: the value it returns, the compute dispatches it made
and the file it wrote (`none`: no file, or a read outside `pixels`). -/
structure Result where
  exitCode : ℤ
  dispatches : List Dispatch
  output : Option PPM

/-- The function `main`. -/
def main (env : Env) : Result :=
  if !env.display then ⟨1, [], none⟩
  else if !env.glew then ⟨1, [], none⟩
  else if loadFile env.files "blackhole.comp" = "" then ⟨1, [], none⟩
  else if env.compileShader (loadFile env.files "blackhole.comp") = 0 then ⟨1, [], none⟩
  else if !env.linkStatus then ⟨1, [], none⟩
  else ⟨0, [dispatch], savePPM { size := WIDTH * HEIGHT * 4, data := env.texImage }⟩

end Linux

/-! ## Notions of the specification -/

/-- Modelled from the spec: the quantity `M² − a²` under the square root of the
horizon radius `r_horizon = M + √(M² − a²)`; the kernel that evaluates it is not
among the sources. -/
def horizonDiscriminant (M a : ℚ) : ℚ := M ^ 2 - a ^ 2

/-- The clamped ranges of `main.cpp`: inclination in `[0.1, 89.9]`, camera distance
in `[10, 50]` (bounds as the `float` literals of the source). -/
def Main.InRange (s : Main.AppState) : Prop :=
  ((0.1 : F32) ≤ s.inclination ∧ s.inclination ≤ 89.9) ∧
  ((10.0 : F32) ≤ s.cameraDistance ∧ s.cameraDistance ≤ 50.0)

/-- The clamped ranges of `main_improved.cpp`: inclination in `[0.1, 89.9]`, camera
distance in `[10, 50]`, bounces in `[1, 5]`, bloom strength in `[0, 2]` (bounds as
the `float` literals of the source). -/
def Improved.InRange (s : Improved.AppState) : Prop :=
  ((0.1 : F32) ≤ s.inclination ∧ s.inclination ≤ 89.9) ∧
  ((10.0 : F32) ≤ s.cameraDistance ∧ s.cameraDistance ≤ 50.0) ∧
  (1 ≤ s.maxBounces ∧ s.maxBounces ≤ 5) ∧
  ((0.0 : F32) ≤ s.bloomStrength ∧ s.bloomStrength ≤ 2.0)

/-- The key press of key `sym`. -/
abbrev key (sym : SDL_Keycode) : SDL_Event := SDL_Event.SDL_KEYDOWN sym

/-- The result `r` is the value `v` clamped into `[lo, hi]`: it equals
`min(hi, max(lo, v))`, which is `v` itself when `v` is in range and otherwise the
bound nearest to `v`. -/
def F32.IsClampOf (lo hi v r : F32) : Prop :=
  r = F32.min hi (F32.max lo v) ∧ (lo ≤ v → v ≤ hi → r = v) ∧ (v < lo → r = lo) ∧
    (hi < v → r = hi)

/-- The integer `r` is the integer `v` clamped into `[lo, hi]`: it equals
`min(hi, max(lo, v))`, which is `v` itself when `v` is in range and otherwise the
bound nearest to `v`. -/
def IntIsClampOf (lo hi v r : ℤ) : Prop :=
  r = intMin hi (intMax lo v) ∧ (lo ≤ v → v ≤ hi → r = v) ∧ (v < lo → r = lo) ∧
    (hi < v → r = hi)

/-- The loop variables of `main.cpp` after Space was pressed in the first pass, 16 ms
after start. -/
def Main.pausedLoop : Main.LoopState :=
  (Main.frame { ticks := 16, events := [key .SDLK_SPACE] }
    { state := Main.state, lastTime := 0, frameCount := 0, fpsTimer := 0.0 }).1

/-- The loop variables of `main_improved.cpp` after Space was pressed in the first
pass, 16 ms after start. -/
def Improved.pausedLoop : Improved.LoopState :=
  (Improved.frame { ticks := 16, events := [key .SDLK_SPACE] }
    { state := Improved.state, lastTime := 0, frameCount := 0, fpsTimer := 0.0 }).1


/-! ## Start-up outcomes -/

/-- An asset `main.cpp` needs is missing: the loaded text of `shader.vert`,
`shader.frag` or `blackhole.comp` is empty. -/
def Main.assetMissing (files : Files) : Prop :=
  Main.loadShaderSource files "shader.vert" = "" ∨
  Main.loadShaderSource files "shader.frag" = "" ∨
  Main.loadShaderSource files "blackhole.comp" = ""

/-- An asset `main_improved.cpp` needs is missing: the loaded text of `shader.vert`
or `shader.frag` is empty, or those of `blackhole_improved.comp` and of
`blackhole.comp` both are. -/
def Improved.assetMissing (files : Files) : Prop :=
  Improved.loadShaderSource files "shader.vert" = "" ∨
  Improved.loadShaderSource files "shader.frag" = "" ∨
  (Improved.loadShaderSource files "blackhole_improved.comp" = "" ∧
    Improved.loadShaderSource files "blackhole.comp" = "")

/-- The asset `main_linux.cpp` needs is missing: the loaded text of `blackhole.comp`
is empty. -/
def Linux.assetMissing (files : Files) : Prop :=
  Linux.loadFile files "blackhole.comp" = ""

/-- Every start-up step of `main.cpp` other than the asset check succeeds. -/
def Main.restOk (env : Main.Env) : Prop :=
  env.sdlInit = true ∧ env.window = true ∧ env.context = true ∧ env.glew = true ∧
  (∀ v f, env.createShaderProgram v f ≠ 0) ∧ (∀ c, env.createComputeShader c ≠ 0)

/-- Every start-up step of `main_improved.cpp` other than the asset check succeeds. -/
def Improved.restOk (env : Improved.Env) : Prop :=
  env.sdlInit = true ∧ env.window = true ∧ env.context = true ∧ env.glew = true ∧
  env.computeShaderSupport = true ∧
  (∀ v f, env.createShaderProgram v f ≠ 0) ∧ (∀ c, env.createComputeShader c ≠ 0)

/-- Every start-up step of `main_linux.cpp` other than the asset check succeeds. -/
def Linux.restOk (env : Linux.Env) : Prop :=
  env.display = true ∧ env.glew = true ∧ (∀ c, env.compileShader c ≠ 0) ∧
  env.linkStatus = true

/-- The sample bytes of an image of `n` pixels, pixel by pixel in buffer order:
for pixel `k` the bytes of the red, green and blue floats at `4k`, `4k+1`, `4k+2`
(the alpha float at `4k+3` is skipped). -/
def Linux.expectedBody (tex : ℕ → F32) (n : ℕ) : List ℕ :=
  (List.range n).flatMap fun k =>
    Linux.pixelBytes (tex (4 * k)) (tex (4 * k + 1)) (tex (4 * k + 2))

/-- A texture read-back whose every pixel is `(1.0, 0.0, 0.0)` with alpha `0.5`. -/
def Linux.redImage : ℕ → F32 := fun i =>
  if i % 4 = 0 then 1.0 else if i % 4 = 3 then 0.5 else 0.0

/-! ## Loop entry, rendering, and the shared part of the two states -/

/-- The loop variables of `main.cpp` on entry to the main loop; `startTicks` is the
first reading of `SDL_GetTicks()`. -/
def Main.loopStart (startTicks : ℕ) : Main.LoopState :=
  { state := Main.state, lastTime := startTicks % 2 ^ 32, frameCount := 0, fpsTimer := 0.0 }

/-- The loop variables of `main_improved.cpp` on entry to the main loop; `startTicks`
is the first reading of `SDL_GetTicks()`. -/
def Improved.loopStart (startTicks : ℕ) : Improved.LoopState :=
  { state := Improved.state, lastTime := startTicks % 2 ^ 32, frameCount := 0,
    fpsTimer := 0.0 }

/-- Modelled from the spec: the kernel as the pure function
`render(params, resolution) -> OutputImage` of the external interfaces; the compute
shader is not among the sources, so it is the parameter `render`.  The image of a
pass of `main.cpp` is the kernel applied to what the dispatch hands over. -/
def Main.renderFrame {Image : Type} (render : Main.Dispatch → Image)
    (state : Main.AppState) : Image :=
  render (Main.dispatch state)

/-- Modelled from the spec: the kernel as the pure function
`render(params, resolution) -> OutputImage` of the external interfaces; the compute
shader is not among the sources, so it is the parameter `render`.  The image of a
pass of `main_improved.cpp` is the kernel applied to what the dispatch hands over. -/
def Improved.renderFrame {Image : Type} (render : Improved.Dispatch → Image)
    (state : Improved.AppState) : Image :=
  render (Improved.dispatch state)

/-- A value the simulation clock can hold: `+inf`, or a nonnegative binary32 number. -/
def F32.ClockValue (x : F32) : Prop :=
  x = F32.pinf ∨ ∃ t : ℤ, x = F32.fin t ∧ F32.Representable t ∧ 0 ≤ t

/-- The fields `main_improved.cpp` shares with `main.cpp`, as a state of `main.cpp`. -/
def Improved.toMain (s : Improved.AppState) : Main.AppState :=
  { time := s.time
    spinParameter := s.spinParameter
    exposure := s.exposure
    inclination := s.inclination
    cameraDistance := s.cameraDistance
    paused := s.paused
    running := s.running }

/-- The events both handlers know: quit, Escape, Space, Up, Down, A, D, W, S, Q, E. -/
def sharedEvents : List SDL_Event :=
  [SDL_Event.SDL_QUIT, key .SDLK_ESCAPE, key .SDLK_SPACE, key .SDLK_UP, key .SDLK_DOWN,
   key .SDLK_a, key .SDLK_d, key .SDLK_w, key .SDLK_s, key .SDLK_q, key .SDLK_e]

/-! ## Samples of the still frame -/

/-- The largest binary32 number not above `a`, in units of `2^-149`: `a` with the bits
below its 24 leading ones cleared. -/
def F32.floorGrid (a : ℕ) : ℕ := a / 2 ^ (F32.log2 a - 23) * 2 ^ (F32.log2 a - 23)

/-- The byte the export writes for a channel value `v`: `(unsigned char)(v * 255)`. -/
def Linux.sample (v : F32) : ℕ := Linux.toUChar (v * F32.ofInt 255)

/-- The value is one a `float` variable can hold: a finite value is on the binary32
grid. -/
def F32.IsBinary32 : F32 → Prop
  | F32.fin n => F32.Representable n
  | _ => True

/-! ## The geodesic integrator, from the specification -/

/-- Modelled from the spec: the status of a ray, `integrating` or one of the terminal
outcomes of the integrator's termination conditions (captured, escaped, absorbed at
the disk with no bounce left).  The kernel that holds the integrator is not among
the sources. -/
inductive RayStatus where
  | integrating
  | captured
  | escaped
  | absorbed
  deriving DecidableEq

/-- Modelled from the spec: the parts of the per-pixel ray tracer whose numerics the
specification leaves open, over a type `G` of geodesic states and a type `P` of
simulation parameters: the camera setup that builds a pixel's initial state, one
adaptive Runge-Kutta step, the tests of the termination conditions, and the hard cap
on integration steps.  The kernel is not among the sources. -/
structure Integrator (P G : Type) where
  /-- The initial geodesic state of the ray of pixel `(x, y)`. -/
  camera : P → ℕ × ℕ → G
  /-- One integration step along the geodesic. -/
  advance : P → G → G
  /-- Condition 1: the radial coordinate is below `r_horizon + ε`. -/
  belowHorizon : P → G → Bool
  /-- Condition 2: the radial coordinate exceeds the cutoff radius. -/
  beyondCutoff : P → G → Bool
  /-- Condition 3: the ray crosses the equatorial plane within the disk's bounds. -/
  crossesDisk : P → G → Bool
  /-- The step budget. -/
  maxSteps : ℕ

/-- Modelled from the spec: a ray, with its geodesic state, remaining bounce budget,
number of integration steps taken and status (the accumulated radiance plays no part
in termination and is left out). -/
structure Ray (G : Type) where
  geo : G
  bounces : ℕ
  steps : ℕ
  status : RayStatus

/-- Modelled from the spec: one turn of the integrator's state machine.  The
termination conditions are checked in order, first match wins: captured; escaped;
disk crossing, which absorbs the ray when no bounce is left and otherwise uses one
bounce and lets the ray continue; step budget exhausted, treated as escaped.
Otherwise the ray takes one integration step. -/
def Integrator.step {P G : Type} (I : Integrator P G) (p : P) (ray : Ray G) : Ray G :=
  match ray.status with
  | RayStatus.integrating =>
    if I.belowHorizon p ray.geo then { ray with status := RayStatus.captured }
    else if I.beyondCutoff p ray.geo then { ray with status := RayStatus.escaped }
    else if I.crossesDisk p ray.geo ∧ ray.bounces = 0 then
      { ray with status := RayStatus.absorbed }
    else if I.maxSteps ≤ ray.steps then { ray with status := RayStatus.escaped }
    else
      { geo := I.advance p ray.geo
        bounces := if I.crossesDisk p ray.geo then ray.bounces - 1 else ray.bounces
        steps := ray.steps + 1
        status := RayStatus.integrating }
  | _ => ray

/-- Modelled from the spec: the integrator loop, at most `fuel` turns of the state
machine, stopping at the first terminal status. -/
def Integrator.run {P G : Type} (I : Integrator P G) (p : P) : ℕ → Ray G → Ray G
  | 0, ray => ray
  | fuel + 1, ray =>
    if ray.status = RayStatus.integrating then I.run p fuel (I.step p ray) else ray

/-- Modelled from the spec: the ray of pixel `pixel` as it starts, with the full
bounce budget and no step taken. -/
def Integrator.start {P G : Type} (I : Integrator P G) (p : P) (maxBounces : ℕ)
    (pixel : ℕ × ℕ) : Ray G :=
  { geo := I.camera p pixel, bounces := maxBounces, steps := 0,
    status := RayStatus.integrating }

/-- Modelled from the spec: the integration of the ray of one pixel; `maxSteps + 1`
turns of the state machine are allowed, one for each integration step of the budget
and one for the final check. -/
def Integrator.integrate {P G : Type} (I : Integrator P G) (p : P) (maxBounces : ℕ)
    (pixel : ℕ × ℕ) : Ray G :=
  I.run p (I.maxSteps + 1) (I.start p maxBounces pixel)

/-- An integrator on the integers that never meets a termination condition: every
step moves on by one and nothing is ever captured, escaped or at the disk. -/
def runawayIntegrator : Integrator Unit ℤ :=
  { camera := fun _ pixel => (pixel.1 : ℤ) + pixel.2
    advance := fun _ g => g + 1
    belowHorizon := fun _ _ => false
    beyondCutoff := fun _ _ => false
    crossesDisk := fun _ _ => false
    maxSteps := 4 }
/-! ## Facts about binary32 rounding -/

namespace F32

theorem log2Fuel_spec : ∀ (fuel n : ℕ), n ≤ fuel → 0 < n →
    2 ^ log2Fuel fuel n ≤ n ∧ n < 2 ^ (log2Fuel fuel n + 1)
  | 0, n, h, hn => by omega
  | fuel + 1, n, h, hn => by
    unfold log2Fuel
    split
    · simp
      omega
    · have ih := log2Fuel_spec fuel (n / 2) (by omega) (by omega)
      rw [pow_succ, pow_succ]
      rw [pow_succ] at ih
      omega

theorem log2_spec (n : ℕ) (hn : 0 < n) : 2 ^ log2 n ≤ n ∧ n < 2 ^ (log2 n + 1) :=
  log2Fuel_spec n n le_rfl hn

theorem log2_zero : log2 0 = 0 := rfl

theorem log2_eq_of_bounds {n k : ℕ} (h1 : 2 ^ k ≤ n) (h2 : n < 2 ^ (k + 1)) : log2 n = k := by
  have hn : 0 < n := lt_of_lt_of_le (Nat.pow_pos (by norm_num)) h1
  obtain ⟨h3, h4⟩ := log2_spec n hn
  have a1 : k < log2 n + 1 :=
    (Nat.pow_lt_pow_iff_right (by norm_num : 1 < 2)).1 (lt_of_le_of_lt h1 h4)
  have a2 : log2 n < k + 1 :=
    (Nat.pow_lt_pow_iff_right (by norm_num : 1 < 2)).1 (lt_of_le_of_lt h3 h2)
  omega

theorem log2_mono {a b : ℕ} (h : a ≤ b) : log2 a ≤ log2 b := by
  rcases Nat.eq_zero_or_pos a with h0 | ha
  · subst h0
    simp [log2_zero]
  · obtain ⟨h1, _⟩ := log2_spec a ha
    obtain ⟨_, h4⟩ := log2_spec b (lt_of_lt_of_le ha h)
    have : log2 a < log2 b + 1 :=
      (Nat.pow_lt_pow_iff_right (by norm_num : 1 < 2)).1 (by omega)
    omega

theorem div_le_div_of_cross {a b d d' : ℕ} (hd : 0 < d) (hd' : 0 < d')
    (h : a * d' ≤ b * d) : a / d ≤ b / d' := by
  rw [Nat.le_div_iff_mul_le hd']
  have h1 : a / d * d ≤ a := Nat.div_mul_le_self a d
  have h2 : a / d * d' * d ≤ b * d := by
    calc a / d * d' * d = a / d * d * d' := by ring
      _ ≤ a * d' := Nat.mul_le_mul_right _ h1
      _ ≤ b * d := h
  exact Nat.le_of_mul_le_mul_right h2 hd

theorem le_rneDiv (a d : ℕ) : a / d ≤ rneDiv a d := by
  unfold rneDiv
  split_ifs <;> omega

theorem rneDiv_le (a d : ℕ) : rneDiv a d ≤ a / d + 1 := by
  unfold rneDiv
  split_ifs <;> omega

theorem rneDiv_of_dvd {a d : ℕ} (hd : 0 < d) (h : d ∣ a) : rneDiv a d = a / d := by
  unfold rneDiv
  rw [Nat.mod_eq_zero_of_dvd h]
  simp [hd]

theorem rneDiv_mono {a b d d' : ℕ} (hd : 0 < d) (hd' : 0 < d')
    (h : a * d' ≤ b * d) : rneDiv a d ≤ rneDiv b d' := by
  have hq := div_le_div_of_cross hd hd' h
  rcases Nat.lt_or_ge (a / d) (b / d') with hlt | hge
  · calc rneDiv a d ≤ a / d + 1 := rneDiv_le a d
      _ ≤ b / d' := hlt
      _ ≤ rneDiv b d' := le_rneDiv b d'
  · have hm : a / d = b / d' := le_antisymm hq hge
    have ea : d * (a / d) + a % d = a := Nat.div_add_mod a d
    have eb : d' * (b / d') + b % d' = b := Nat.div_add_mod b d'
    have hr : a % d * d' ≤ b % d' * d := by
      have e1 : a * d' = d * (a / d) * d' + a % d * d' := by
        conv_lhs => rw [← ea]
        ring
      have e2 : b * d = d * (a / d) * d' + b % d' * d := by
        conv_lhs => rw [← eb, ← hm]
        ring
      omega
    unfold rneDiv
    rw [← hm]
    by_cases c1 : 2 * (a % d) < d
    · rw [if_pos c1]
      split_ifs <;> omega
    · rw [if_neg c1]
      have k1 : ¬ 2 * (b % d') < d' := by
        intro hc
        have p1 : 2 * (b % d') * d < d' * d := Nat.mul_lt_mul_of_pos_right hc hd
        have p2 : d * d' ≤ 2 * (a % d) * d' := Nat.mul_le_mul_right _ (not_lt.1 c1)
        have p3 : 2 * (a % d) * d' = 2 * (a % d * d') := by ring
        have p4 : 2 * (b % d') * d = 2 * (b % d' * d) := by ring
        have p5 : d * d' = d' * d := by ring
        omega
      rw [if_neg k1]
      by_cases c2 : d < 2 * (a % d)
      · rw [if_pos c2]
        have k2 : d' < 2 * (b % d') := by
          by_contra hc
          have p1 : 2 * (b % d') * d ≤ d' * d := Nat.mul_le_mul_right _ (not_lt.1 hc)
          have p2 : d * d' < 2 * (a % d) * d' := Nat.mul_lt_mul_of_pos_right c2 hd'
          have p3 : 2 * (a % d) * d' = 2 * (a % d * d') := by ring
          have p4 : 2 * (b % d') * d = 2 * (b % d' * d) := by ring
          have p5 : d * d' = d' * d := by ring
          omega
        rw [if_pos k2]
      · rw [if_neg c2]
        split_ifs <;> omega

theorem mantissa_lt {a d : ℕ} :
    a / (d * 2 ^ (log2 (a / d) - 23)) < 2 ^ 24 := by
  rw [← Nat.div_div_eq_div_mul]
  rcases Nat.eq_zero_or_pos (a / d) with h0 | hq
  · rw [h0]
    simp
  · obtain ⟨_, h2⟩ := log2_spec (a / d) hq
    rw [Nat.div_lt_iff_lt_mul (Nat.pow_pos (by norm_num)), ← pow_add]
    have : 2 ^ (log2 (a / d) + 1) ≤ 2 ^ (24 + (log2 (a / d) - 23)) :=
      Nat.pow_le_pow_right (by norm_num) (by omega)
    omega

theorem le_mantissa {a d : ℕ} (he : 0 < log2 (a / d) - 23) :
    2 ^ 23 ≤ a / (d * 2 ^ (log2 (a / d) - 23)) := by
  rw [← Nat.div_div_eq_div_mul]
  have hq : 0 < a / d := by
    rcases Nat.eq_zero_or_pos (a / d) with h0 | hq
    · rw [h0, log2_zero] at he
      omega
    · exact hq
  obtain ⟨h1, _⟩ := log2_spec (a / d) hq
  rw [Nat.le_div_iff_mul_le (Nat.pow_pos (by norm_num)), ← pow_add]
  have : 23 + (log2 (a / d) - 23) = log2 (a / d) := by omega
  rw [this]
  exact h1

theorem roundNat_mono {a b d d' : ℕ} (hd : 0 < d) (hd' : 0 < d')
    (h : a * d' ≤ b * d) : roundNat a d ≤ roundNat b d' := by
  have hq := div_le_div_of_cross hd hd' h
  have he : log2 (a / d) - 23 ≤ log2 (b / d') - 23 := Nat.sub_le_sub_right (log2_mono hq) 23
  unfold roundNat
  rcases Nat.eq_or_lt_of_le he with heq | hlt
  · rw [← heq]
    have p : 0 < 2 ^ (log2 (a / d) - 23) := Nat.pow_pos (by norm_num)
    apply Nat.mul_le_mul_right
    apply rneDiv_mono (Nat.mul_pos hd p) (Nat.mul_pos hd' p)
    calc a * (d' * 2 ^ (log2 (a / d) - 23)) = a * d' * 2 ^ (log2 (a / d) - 23) := by ring
      _ ≤ b * d * 2 ^ (log2 (a / d) - 23) := Nat.mul_le_mul_right _ h
      _ = b * (d * 2 ^ (log2 (a / d) - 23)) := by ring
  · have u1 : rneDiv a (d * 2 ^ (log2 (a / d) - 23)) ≤ 2 ^ 24 :=
      le_trans (rneDiv_le _ _) (@mantissa_lt a d)
    have u2 : 2 ^ 23 ≤ rneDiv b (d' * 2 ^ (log2 (b / d') - 23)) :=
      le_trans (le_mantissa (by omega)) (le_rneDiv _ _)
    have u3 : 2 ^ (log2 (a / d) - 23 + 1) ≤ 2 ^ (log2 (b / d') - 23) :=
      Nat.pow_le_pow_right (by norm_num) hlt
    calc rneDiv a (d * 2 ^ (log2 (a / d) - 23)) * 2 ^ (log2 (a / d) - 23)
        ≤ 2 ^ 24 * 2 ^ (log2 (a / d) - 23) := Nat.mul_le_mul_right _ u1
      _ = 2 ^ 23 * 2 ^ (log2 (a / d) - 23 + 1) := by ring
      _ ≤ 2 ^ 23 * 2 ^ (log2 (b / d') - 23) := Nat.mul_le_mul_left _ u3
      _ ≤ rneDiv b (d' * 2 ^ (log2 (b / d') - 23)) * 2 ^ (log2 (b / d') - 23) :=
          Nat.mul_le_mul_right _ u2

theorem roundNat_of_dvd {n : ℕ} (h : 2 ^ (log2 n - 23) ∣ n) : roundNat n 1 = n := by
  unfold roundNat
  rw [Nat.div_one, Nat.one_mul, rneDiv_of_dvd (Nat.pow_pos (by norm_num)) h]
  exact Nat.div_mul_cancel h

theorem roundNat_pos {a d : ℕ} (hd : 0 < d) (h : d < 2 * a) : 1 ≤ roundNat a d := by
  rcases Nat.lt_or_ge a d with hlt | hge
  · unfold roundNat
    rw [Nat.div_eq_of_lt hlt, log2_zero]
    simp only [Nat.zero_sub, pow_zero, Nat.mul_one]
    unfold rneDiv
    rw [Nat.mod_eq_of_lt hlt, Nat.div_eq_of_lt hlt]
    rw [if_neg (by omega), if_pos h]
  · have h1 : roundNat 1 1 ≤ roundNat a d := roundNat_mono (by norm_num) hd (by omega)
    have h2 : roundNat 1 1 = 1 := by decide
    omega

theorem roundDiv_le {num H : ℤ} {den : ℕ} (hd : 0 < den) (hH : Representable H)
    (h : num ≤ H * den) : roundDiv num den ≤ fin H := by
  obtain ⟨hdvd, hmax⟩ := hH
  have hrep : roundNat H.natAbs 1 = H.natAbs := roundNat_of_dvd hdvd
  show le (roundDiv num den) (fin H) = true
  unfold roundDiv
  by_cases hneg : num < 0
  · simp only [hneg, if_true]
    split_ifs
    · rfl
    · simp only [le, decide_eq_true_eq]
      rcases Int.lt_or_le H 0 with hH0 | hH0
      · have hm : roundNat H.natAbs 1 ≤ roundNat num.natAbs den := by
          apply roundNat_mono (by norm_num) hd
          have e1 : ((H.natAbs * den : ℕ) : ℤ) = -(H * den) := by
            push_cast
            rw [abs_of_neg hH0]
            ring
          have e2 : ((num.natAbs * 1 : ℕ) : ℤ) = -num := by
            push_cast
            rw [abs_of_neg hneg]
            ring
          have : ((H.natAbs * den : ℕ) : ℤ) ≤ ((num.natAbs * 1 : ℕ) : ℤ) := by
            rw [e1, e2]
            omega
          exact_mod_cast this
        rw [hrep] at hm
        omega
      · omega
  · simp only [hneg, if_false]
    have hnum : 0 ≤ num := not_lt.1 hneg
    have hH0 : 0 ≤ H := by
      by_contra hc
      have : H * den < 0 := mul_neg_of_neg_of_pos (not_le.1 hc) (by exact_mod_cast hd)
      omega
    have hm : roundNat num.natAbs den ≤ roundNat H.natAbs 1 := by
      apply roundNat_mono hd (by norm_num)
      have e1 : ((H.natAbs * den : ℕ) : ℤ) = H * den := by
        push_cast
        rw [abs_of_nonneg hH0]
      have e2 : ((num.natAbs * 1 : ℕ) : ℤ) = num := by
        push_cast
        rw [abs_of_nonneg hnum]
        ring
      have : ((num.natAbs * 1 : ℕ) : ℤ) ≤ ((H.natAbs * den : ℕ) : ℤ) := by
        rw [e1, e2]
        exact h
      exact_mod_cast this
    rw [hrep] at hm
    rw [if_neg (by omega)]
    simp only [le, decide_eq_true_eq]
    omega

theorem le_roundDiv {num L : ℤ} {den : ℕ} (hd : 0 < den) (hL : Representable L)
    (h : L * den ≤ num) : fin L ≤ roundDiv num den := by
  obtain ⟨hdvd, hmax⟩ := hL
  have hrep : roundNat L.natAbs 1 = L.natAbs := roundNat_of_dvd hdvd
  show le (fin L) (roundDiv num den) = true
  unfold roundDiv
  by_cases hneg : num < 0
  · simp only [hneg, if_true]
    have hL0 : L < 0 := by
      by_contra hc
      have : 0 ≤ L * den := mul_nonneg (not_lt.1 hc) (by exact_mod_cast hd.le)
      omega
    have hm : roundNat num.natAbs den ≤ roundNat L.natAbs 1 := by
      apply roundNat_mono hd (by norm_num)
      have e1 : ((L.natAbs * den : ℕ) : ℤ) = -(L * den) := by
        push_cast
        rw [abs_of_neg hL0]
        ring
      have e2 : ((num.natAbs * 1 : ℕ) : ℤ) = -num := by
        push_cast
        rw [abs_of_neg hneg]
        ring
      have : ((num.natAbs * 1 : ℕ) : ℤ) ≤ ((L.natAbs * den : ℕ) : ℤ) := by
        rw [e1, e2]
        omega
      exact_mod_cast this
    rw [hrep] at hm
    rw [if_neg (by omega)]
    simp only [le, decide_eq_true_eq]
    omega
  · simp only [hneg, if_false]
    have hnum : 0 ≤ num := not_lt.1 hneg
    split_ifs
    · rfl
    · simp only [le, decide_eq_true_eq]
      rcases Int.lt_or_le 0 L with hL0 | hL0
      · have hm : roundNat L.natAbs 1 ≤ roundNat num.natAbs den := by
          apply roundNat_mono (by norm_num) hd
          have e1 : ((L.natAbs * den : ℕ) : ℤ) = L * den := by
            push_cast
            rw [abs_of_pos hL0]
          have e2 : ((num.natAbs * 1 : ℕ) : ℤ) = num := by
            push_cast
            rw [abs_of_nonneg hnum]
            ring
          have : ((L.natAbs * den : ℕ) : ℤ) ≤ ((num.natAbs * 1 : ℕ) : ℤ) := by
            rw [e1, e2]
            exact h
          exact_mod_cast this
        rw [hrep] at hm
        omega
      · omega

theorem roundDiv_pos {num : ℤ} {den : ℕ} (hd : 0 < den) (h : (den : ℤ) < 2 * num) :
    fin 0 < roundDiv num den := by
  have hnum : ¬ num < 0 := by omega
  have hM : 1 ≤ roundNat num.natAbs den := roundNat_pos hd (by omega)
  show lt (fin 0) (roundDiv num den) = true
  unfold roundDiv
  simp only [hnum, if_false]
  split_ifs
  · rfl
  · simp only [lt, decide_eq_true_eq]
    omega

/-! ### The order on floats and the clamps `std::max`, `std::min` -/

theorem le_fin_fin {a b : ℤ} : (fin a ≤ fin b) ↔ a ≤ b := by
  show le (fin a) (fin b) = true ↔ a ≤ b
  simp [le]

theorem lt_fin_fin {a b : ℤ} : (fin a < fin b) ↔ a < b := by
  show lt (fin a) (fin b) = true ↔ a < b
  simp [lt]

theorem not_pinf_le_fin (n : ℤ) : ¬ (pinf ≤ fin n) := by
  show ¬ (le pinf (fin n) = true)
  simp [le]

theorem not_nan_le_fin (n : ℤ) : ¬ (nan ≤ fin n) := by
  show ¬ (le nan (fin n) = true)
  simp [le]

theorem not_fin_le_ninf (n : ℤ) : ¬ (fin n ≤ ninf) := by
  show ¬ (le (fin n) ninf = true)
  simp [le]

theorem not_fin_le_nan (n : ℤ) : ¬ (fin n ≤ nan) := by
  show ¬ (le (fin n) nan = true)
  simp [le]

theorem exists_fin_of_le_of_le {x : F32} {lo hi : ℤ} (h1 : fin lo ≤ x) (h2 : x ≤ fin hi) :
    ∃ n, x = fin n ∧ lo ≤ n ∧ n ≤ hi := by
  cases x with
  | fin n => exact ⟨n, rfl, le_fin_fin.1 h1, le_fin_fin.1 h2⟩
  | pinf => exact absurd h2 (not_pinf_le_fin _)
  | ninf => exact absurd h1 (not_fin_le_ninf _)
  | nan => exact absurd h1 (not_fin_le_nan _)

theorem max_le_of_le {x : F32} {lo hi : ℤ} (hlh : lo ≤ hi) (h : x ≤ fin hi) :
    fin lo ≤ max (fin lo) x ∧ max (fin lo) x ≤ fin hi := by
  unfold max
  cases x with
  | fin n =>
    have hn : n ≤ hi := le_fin_fin.1 h
    by_cases c : lo < n
    · simp only [lt, c, decide_True, if_true]
      exact ⟨le_fin_fin.2 (le_of_lt c), h⟩
    · simp only [lt, c, decide_False]
      exact ⟨le_fin_fin.2 le_rfl, le_fin_fin.2 hlh⟩
  | pinf => exact absurd h (not_pinf_le_fin _)
  | ninf => exact ⟨le_fin_fin.2 le_rfl, le_fin_fin.2 hlh⟩
  | nan => exact absurd h (not_nan_le_fin _)

theorem le_min_of_le {x : F32} {lo hi : ℤ} (hlh : lo ≤ hi) (h : fin lo ≤ x) :
    fin lo ≤ min (fin hi) x ∧ min (fin hi) x ≤ fin hi := by
  unfold min
  cases x with
  | fin n =>
    have hn : lo ≤ n := le_fin_fin.1 h
    by_cases c : n < hi
    · simp only [lt, c, decide_True, if_true]
      exact ⟨h, le_fin_fin.2 (le_of_lt c)⟩
    · simp only [lt, c, decide_False]
      exact ⟨le_fin_fin.2 hlh, le_fin_fin.2 le_rfl⟩
  | pinf => exact ⟨le_fin_fin.2 hlh, le_fin_fin.2 le_rfl⟩
  | ninf => exact absurd h (not_fin_le_ninf _)
  | nan => exact absurd h (not_fin_le_nan _)

theorem min_eq_of_le {y : F32} {hi : ℤ} (h : y ≤ fin hi) : min (fin hi) y = y := by
  unfold min
  cases y with
  | fin n =>
    have hn : n ≤ hi := le_fin_fin.1 h
    by_cases c : n < hi
    · simp [lt, c]
    · have : n = hi := by omega
      simp [lt, this]
  | pinf => exact absurd h (not_pinf_le_fin _)
  | ninf => simp [lt]
  | nan => exact absurd h (not_nan_le_fin _)

theorem max_eq_of_le {y : F32} {lo : ℤ} (h : fin lo ≤ y) : max (fin lo) y = y := by
  unfold max
  cases y with
  | fin n =>
    have hn : lo ≤ n := le_fin_fin.1 h
    by_cases c : lo < n
    · simp [lt, c]
    · have : n = lo := by omega
      simp [lt, this]
  | pinf => simp [lt]
  | ninf => exact absurd h (not_fin_le_ninf _)
  | nan => exact absurd h (not_fin_le_nan _)

/-- Adding a nonnegative step never takes a float below a representable lower bound. -/
theorem le_add_of_le {n s L : ℤ} (hL : Representable L) (h : L ≤ n) (hs : 0 ≤ s) :
    fin L ≤ fin n + fin s := by
  show fin L ≤ roundDiv (n + s) 1
  exact le_roundDiv (by norm_num) hL (by push_cast; omega)

/-- Subtracting a nonnegative step never takes a float above a representable upper bound. -/
theorem sub_le_of_le {n s H : ℤ} (hH : Representable H) (h : n ≤ H) (hs : 0 ≤ s) :
    fin n - fin s ≤ fin H := by
  show roundDiv (n + -s) 1 ≤ fin H
  exact roundDiv_le (by norm_num) hH (by push_cast; omega)

theorem clamp_sub {x : F32} {lo hi s : ℤ} (hhi : Representable hi) (hlh : lo ≤ hi)
    (hs : 0 ≤ s) (h1 : fin lo ≤ x) (h2 : x ≤ fin hi) :
    fin lo ≤ max (fin lo) (x - fin s) ∧ max (fin lo) (x - fin s) ≤ fin hi := by
  obtain ⟨n, rfl, _, hn⟩ := exists_fin_of_le_of_le h1 h2
  exact max_le_of_le hlh (sub_le_of_le hhi hn hs)

theorem clamp_add {x : F32} {lo hi s : ℤ} (hlo : Representable lo) (hlh : lo ≤ hi)
    (hs : 0 ≤ s) (h1 : fin lo ≤ x) (h2 : x ≤ fin hi) :
    fin lo ≤ min (fin hi) (x + fin s) ∧ min (fin hi) (x + fin s) ≤ fin hi := by
  obtain ⟨n, rfl, hn, _⟩ := exists_fin_of_le_of_le h1 h2
  exact le_min_of_le hlh (le_add_of_le hlo hn hs)

theorem pos_cases {x : F32} (h : fin 0 < x) : x = pinf ∨ ∃ n : ℤ, x = fin n ∧ 0 < n := by
  cases x with
  | fin n => exact Or.inr ⟨n, rfl, lt_fin_fin.1 h⟩
  | pinf => exact Or.inl rfl
  | ninf => exact absurd h (by show ¬ (lt (fin 0) ninf = true); simp [lt])
  | nan => exact absurd h (by show ¬ (lt (fin 0) nan = true); simp [lt])

theorem zero_lt_pinf : fin 0 < pinf := by
  show lt (fin 0) pinf = true
  rfl

/-- Multiplying a positive float by a finite factor above one half stays positive:
the product of the smallest subnormal with such a factor rounds to at least the
smallest subnormal. -/
theorem mul_pos_of_pos {x : F32} {c : ℤ} (hc : 2 ^ 148 < c) (h : fin 0 < x) :
    fin 0 < x * fin c := by
  rcases pos_cases h with rfl | ⟨n, rfl, hn⟩
  · show fin 0 < infTimes true (fin c)
    have hpos : lt (fin 0) (fin c) = true := by
      simp only [lt, decide_eq_true_eq]
      have : (0 : ℤ) < 2 ^ 148 := by norm_num
      omega
    rw [infTimes, if_pos hpos]
    exact zero_lt_pinf
  · show fin 0 < roundDiv (n * c) (2 ^ 149)
    apply roundDiv_pos (by norm_num)
    have h1 : c ≤ n * c := by nlinarith
    push_cast
    have : (2 : ℤ) ^ 149 = 2 * 2 ^ 148 := by norm_num
    omega

/-- Dividing a positive float by a finite divisor below two stays positive: gradual
underflow stops at the smallest subnormal, it never reaches zero. -/
theorem div_pos_of_pos {x : F32} {c : ℤ} (hc0 : 0 < c) (hc : c < 2 ^ 150) (h : fin 0 < x) :
    fin 0 < x / fin c := by
  rcases pos_cases h with rfl | ⟨n, rfl, hn⟩
  · show fin 0 < (if 0 ≤ c then pinf else ninf)
    rw [if_pos hc0.le]
    exact zero_lt_pinf
  · show fin 0 < (if c = 0 then (if n = 0 then nan else if 0 < n then pinf else ninf)
      else if 0 < c then roundDiv (n * 2 ^ 149) c.natAbs
      else roundDiv (-(n * 2 ^ 149)) c.natAbs)
    rw [if_neg (by omega), if_pos hc0]
    apply roundDiv_pos (by omega)
    have h1 : (2 : ℤ) ^ 149 ≤ n * 2 ^ 149 := by nlinarith [pow_pos (show (0 : ℤ) < 2 by norm_num) 149]
    have : ((c.natAbs : ℕ) : ℤ) = c := Int.natAbs_of_nonneg hc0.le
    have : (2 : ℤ) ^ 150 = 2 * 2 ^ 149 := by norm_num
    omega

/-! ### The literals of the programs -/

theorem lit_0_0 : (0.0 : F32) = fin 0 := by decide

theorem lit_0_05 : (0.05 : F32) = fin (13421773 * 2 ^ 121) := by decide

theorem lit_0_1 : (0.1 : F32) = fin (13421773 * 2 ^ 122) := by decide

theorem lit_0_5 : (0.5 : F32) = fin (2 ^ 148) := by decide

theorem lit_0_9 : (0.9 : F32) = fin (15099494 * 2 ^ 125) := by decide

theorem lit_0_998 : (0.998 : F32) = fin (16743662 * 2 ^ 125) := by decide

theorem lit_1_0 : (1.0 : F32) = fin (2 ^ 149) := by decide

theorem lit_1_1 : (1.1 : F32) = fin (9227469 * 2 ^ 126) := by decide

theorem lit_1_2 : (1.2 : F32) = fin (10066330 * 2 ^ 126) := by decide

theorem lit_2_0 : (2.0 : F32) = fin (2 ^ 150) := by decide

theorem lit_10_0 : (10.0 : F32) = fin (10 * 2 ^ 149) := by decide

theorem lit_25_0 : (25.0 : F32) = fin (25 * 2 ^ 149) := by decide

theorem lit_50_0 : (50.0 : F32) = fin (50 * 2 ^ 149) := by decide

theorem lit_85_0 : (85.0 : F32) = fin (85 * 2 ^ 149) := by decide

theorem lit_89_9 : (89.9 : F32) = fin (11783373 * 2 ^ 132) := by decide

theorem lit_90_0 : (90.0 : F32) = fin (90 * 2 ^ 149) := by decide

theorem rep_0 : Representable 0 := by decide

theorem rep_0_1 : Representable (13421773 * 2 ^ 122) := by decide

theorem rep_0_998 : Representable (16743662 * 2 ^ 125) := by decide

theorem rep_2_0 : Representable (2 ^ 150) := by decide

theorem rep_10_0 : Representable (10 * 2 ^ 149) := by decide

theorem rep_50_0 : Representable (50 * 2 ^ 149) := by decide

theorem rep_89_9 : Representable (11783373 * 2 ^ 132) := by decide

end F32

/-! ## The parameter ranges are invariants of `handleInput` -/

theorem main_handleEvents_invariant (P : Main.AppState → Prop)
    (hstep : ∀ e s, P s → P (Main.handleInput e s)) (es : List SDL_Event) :
    ∀ s, P s → P (Main.handleEvents es s) := by
  induction es with
  | nil => exact fun s h => h
  | cons e es ih => exact fun s h => ih _ (hstep e s h)

theorem improved_handleEvents_invariant (P : Improved.AppState → Prop)
    (hstep : ∀ e s, P s → P (Improved.handleInput e s)) (es : List SDL_Event) :
    ∀ s, P s → P (Improved.handleEvents es s) := by
  induction es with
  | nil => exact fun s h => h
  | cons e es ih => exact fun s h => ih _ (hstep e s h)

open F32 in
theorem main_spin_handleInput (e : SDL_Event) (s : Main.AppState)
    (h : (0.0 : F32) ≤ s.spinParameter ∧ s.spinParameter ≤ 0.998) :
    (0.0 : F32) ≤ (Main.handleInput e s).spinParameter ∧
      (Main.handleInput e s).spinParameter ≤ 0.998 := by
  rw [lit_0_0, lit_0_998] at h ⊢
  rcases e with _ | sym | _
  · exact h
  · cases sym <;> simp only [Main.handleInput] <;> first
      | exact h
      | (rw [lit_0_0, lit_0_05]; exact clamp_sub rep_0_998 (by norm_num) (by norm_num) h.1 h.2)
      | (rw [lit_0_998, lit_0_05]; exact clamp_add rep_0 (by norm_num) (by norm_num) h.1 h.2)
  · exact h

open F32 in
theorem improved_spin_handleInput (e : SDL_Event) (s : Improved.AppState)
    (h : (0.0 : F32) ≤ s.spinParameter ∧ s.spinParameter ≤ 0.998) :
    (0.0 : F32) ≤ (Improved.handleInput e s).spinParameter ∧
      (Improved.handleInput e s).spinParameter ≤ 0.998 := by
  rw [lit_0_0, lit_0_998] at h ⊢
  rcases e with _ | sym | _
  · exact h
  · cases sym <;> simp only [Improved.handleInput] <;> first
      | exact h
      | (rw [lit_0_0, lit_0_05]; exact clamp_sub rep_0_998 (by norm_num) (by norm_num) h.1 h.2)
      | (rw [lit_0_998, lit_0_05]; exact clamp_add rep_0 (by norm_num) (by norm_num) h.1 h.2)
      | (rw [lit_0_9]; exact ⟨le_fin_fin.2 (by norm_num), le_fin_fin.2 (by norm_num)⟩)
  · exact h

open F32 in
theorem main_inclination_handleInput (e : SDL_Event) (s : Main.AppState)
    (h : (0.1 : F32) ≤ s.inclination ∧ s.inclination ≤ 89.9) :
    (0.1 : F32) ≤ (Main.handleInput e s).inclination ∧
      (Main.handleInput e s).inclination ≤ 89.9 := by
  rw [lit_0_1, lit_89_9] at h ⊢
  rcases e with _ | sym | _
  · exact h
  · cases sym <;> simp only [Main.handleInput] <;> first
      | exact h
      | (rw [lit_0_1, lit_2_0]; exact clamp_sub rep_89_9 (by norm_num) (by norm_num) h.1 h.2)
      | (rw [lit_89_9, lit_2_0]; exact clamp_add rep_0_1 (by norm_num) (by norm_num) h.1 h.2)
  · exact h

open F32 in
theorem improved_inclination_handleInput (e : SDL_Event) (s : Improved.AppState)
    (h : (0.1 : F32) ≤ s.inclination ∧ s.inclination ≤ 89.9) :
    (0.1 : F32) ≤ (Improved.handleInput e s).inclination ∧
      (Improved.handleInput e s).inclination ≤ 89.9 := by
  rw [lit_0_1, lit_89_9] at h ⊢
  rcases e with _ | sym | _
  · exact h
  · cases sym <;> simp only [Improved.handleInput] <;> first
      | exact h
      | (rw [lit_0_1, lit_2_0]; exact clamp_sub rep_89_9 (by norm_num) (by norm_num) h.1 h.2)
      | (rw [lit_89_9, lit_2_0]; exact clamp_add rep_0_1 (by norm_num) (by norm_num) h.1 h.2)
      | (rw [lit_85_0]; exact ⟨le_fin_fin.2 (by norm_num), le_fin_fin.2 (by norm_num)⟩)
  · exact h

open F32 in
theorem main_cameraDistance_handleInput (e : SDL_Event) (s : Main.AppState)
    (h : (10.0 : F32) ≤ s.cameraDistance ∧ s.cameraDistance ≤ 50.0) :
    (10.0 : F32) ≤ (Main.handleInput e s).cameraDistance ∧
      (Main.handleInput e s).cameraDistance ≤ 50.0 := by
  rw [lit_10_0, lit_50_0] at h ⊢
  rcases e with _ | sym | _
  · exact h
  · cases sym <;> simp only [Main.handleInput] <;> first
      | exact h
      | (rw [lit_10_0, lit_1_0]; exact clamp_sub rep_50_0 (by norm_num) (by norm_num) h.1 h.2)
      | (rw [lit_50_0, lit_1_0]; exact clamp_add rep_10_0 (by norm_num) (by norm_num) h.1 h.2)
  · exact h

open F32 in
theorem improved_cameraDistance_handleInput (e : SDL_Event) (s : Improved.AppState)
    (h : (10.0 : F32) ≤ s.cameraDistance ∧ s.cameraDistance ≤ 50.0) :
    (10.0 : F32) ≤ (Improved.handleInput e s).cameraDistance ∧
      (Improved.handleInput e s).cameraDistance ≤ 50.0 := by
  rw [lit_10_0, lit_50_0] at h ⊢
  rcases e with _ | sym | _
  · exact h
  · cases sym <;> simp only [Improved.handleInput] <;> first
      | exact h
      | (rw [lit_10_0, lit_1_0]; exact clamp_sub rep_50_0 (by norm_num) (by norm_num) h.1 h.2)
      | (rw [lit_50_0, lit_1_0]; exact clamp_add rep_10_0 (by norm_num) (by norm_num) h.1 h.2)
      | (rw [lit_25_0]; exact ⟨le_fin_fin.2 (by norm_num), le_fin_fin.2 (by norm_num)⟩)
  · exact h

theorem intMax_wrap_range {m : ℤ} (h : 1 ≤ m ∧ m ≤ 5) :
    1 ≤ intMax 1 (wrapInt (m - 1)) ∧ intMax 1 (wrapInt (m - 1)) ≤ 5 := by
  unfold intMax wrapInt
  split_ifs <;> omega

theorem intMin_wrap_range {m : ℤ} (h : 1 ≤ m ∧ m ≤ 5) :
    1 ≤ intMin 5 (wrapInt (m + 1)) ∧ intMin 5 (wrapInt (m + 1)) ≤ 5 := by
  unfold intMin wrapInt
  split_ifs <;> omega

theorem improved_maxBounces_handleInput (e : SDL_Event) (s : Improved.AppState)
    (h : 1 ≤ s.maxBounces ∧ s.maxBounces ≤ 5) :
    1 ≤ (Improved.handleInput e s).maxBounces ∧ (Improved.handleInput e s).maxBounces ≤ 5 := by
  rcases e with _ | sym | _
  · exact h
  · cases sym <;> simp only [Improved.handleInput] <;> first
      | exact h
      | exact intMax_wrap_range h
      | exact intMin_wrap_range h
      | exact ⟨by norm_num, by norm_num⟩
  · exact h

open F32 in
theorem improved_bloomStrength_handleInput (e : SDL_Event) (s : Improved.AppState)
    (h : (0.0 : F32) ≤ s.bloomStrength ∧ s.bloomStrength ≤ 2.0) :
    (0.0 : F32) ≤ (Improved.handleInput e s).bloomStrength ∧
      (Improved.handleInput e s).bloomStrength ≤ 2.0 := by
  rw [lit_0_0, lit_2_0] at h ⊢
  rcases e with _ | sym | _
  · exact h
  · cases sym <;> simp only [Improved.handleInput] <;> first
      | exact h
      | (rw [lit_0_0, lit_0_1]; exact clamp_sub rep_2_0 (by norm_num) (by norm_num) h.1 h.2)
      | (rw [lit_2_0, lit_0_1]; exact clamp_add rep_0 (by norm_num) (by norm_num) h.1 h.2)
      | (rw [lit_0_5]; exact ⟨le_fin_fin.2 (by norm_num), le_fin_fin.2 (by norm_num)⟩)
  · exact h

open F32 in
theorem main_exposure_handleInput (e : SDL_Event) (s : Main.AppState)
    (h : (0.0 : F32) < s.exposure) : (0.0 : F32) < (Main.handleInput e s).exposure := by
  rw [lit_0_0] at h ⊢
  rcases e with _ | sym | _
  · exact h
  · cases sym <;> simp only [Main.handleInput] <;> first
      | exact h
      | (rw [lit_1_1]; exact mul_pos_of_pos (by norm_num) h)
      | (rw [lit_1_1]; exact div_pos_of_pos (by norm_num) (by norm_num) h)
  · exact h

open F32 in
theorem improved_exposure_handleInput (e : SDL_Event) (s : Improved.AppState)
    (h : (0.0 : F32) < s.exposure) : (0.0 : F32) < (Improved.handleInput e s).exposure := by
  rw [lit_0_0] at h ⊢
  rcases e with _ | sym | _
  · exact h
  · cases sym <;> simp only [Improved.handleInput] <;> first
      | exact h
      | (rw [lit_1_1]; exact mul_pos_of_pos (by norm_num) h)
      | (rw [lit_1_1]; exact div_pos_of_pos (by norm_num) (by norm_num) h)
      | (rw [lit_1_2]; exact lt_fin_fin.2 (by norm_num))
  · exact h

/-! ## The claims -/

theorem toRat_bounds {x : F32} {K : ℤ} (h0 : F32.fin 0 ≤ x) (h1 : x ≤ F32.fin K)
    (hK : K < 2 ^ 149) :
    x < (1.0 : F32) ∧ ∃ a : ℚ, F32.toRat x = some a ∧ 0 ≤ a ∧ a < 1 := by
  obtain ⟨n, rfl, hn0, hnK⟩ := F32.exists_fin_of_le_of_le h0 h1
  rw [F32.lit_1_0]
  refine ⟨F32.lt_fin_fin.2 (by omega), (n : ℚ) / 2 ^ 149, rfl, ?_, ?_⟩
  · exact div_nonneg (by exact_mod_cast hn0) (by positivity)
  · rw [div_lt_one (by positivity)]
    have : n < 2 ^ 149 := by omega
    exact_mod_cast this

theorem spin_lt_one {x : F32} (h : (0.0 : F32) ≤ x ∧ x ≤ 0.998) :
    x < (1.0 : F32) ∧ ∃ a : ℚ, F32.toRat x = some a ∧ a < 1 ∧ 0 < horizonDiscriminant 1 a := by
  rw [F32.lit_0_0, F32.lit_0_998] at h
  obtain ⟨h1, a, ha, ha0, ha1⟩ := toRat_bounds h.1 h.2 (by norm_num)
  refine ⟨h1, a, ha, ha1, ?_⟩
  unfold horizonDiscriminant
  nlinarith

/-- C1 (counterexample): in both programs two presses of D from the start-up
defaults take the spin `0.9 → 0.95 → min(0.998, 1.0)`, so the spin takes the value
`0.998f` exactly; it is then not below `0.998f`, and as a real number
(`16743662 / 2^24`) it is not below `0.998` either. -/
theorem C1_counterexample_spin_reaches_0998 :
    ((Main.handleEvents [key .SDLK_d, key .SDLK_d] Main.state).spinParameter = 0.998 ∧
      ¬ ((Main.handleEvents [key .SDLK_d, key .SDLK_d] Main.state).spinParameter < 0.998) ∧
      ∃ q : ℚ, F32.toRat (Main.handleEvents [key .SDLK_d, key .SDLK_d]
        Main.state).spinParameter = some q ∧ ¬ (q < 998 / 1000)) ∧
    ((Improved.handleEvents [key .SDLK_d, key .SDLK_d] Improved.state).spinParameter = 0.998 ∧
      ¬ ((Improved.handleEvents [key .SDLK_d, key .SDLK_d]
        Improved.state).spinParameter < 0.998) ∧
      ∃ q : ℚ, F32.toRat (Improved.handleEvents [key .SDLK_d, key .SDLK_d]
        Improved.state).spinParameter = some q ∧ ¬ (q < 998 / 1000)) := by
  have h1 : (Main.handleEvents [key .SDLK_d, key .SDLK_d] Main.state).spinParameter
      = F32.fin (16743662 * 2 ^ 125) := by decide
  have h2 : (Improved.handleEvents [key .SDLK_d, key .SDLK_d] Improved.state).spinParameter
      = F32.fin (16743662 * 2 ^ 125) := by decide
  rw [h1, h2, F32.lit_0_998]
  refine ⟨⟨rfl, ?_, _, rfl, ?_⟩, ⟨rfl, ?_, _, rfl, ?_⟩⟩
  · rw [F32.lt_fin_fin]; exact lt_irrefl _
  · norm_num
  · rw [F32.lt_fin_fin]; exact lt_irrefl _
  · norm_num

/-- C1 (amended): in every state reachable from the start-up defaults by a finite
sequence of input events, in `main.cpp` and in `main_improved.cpp`, the spin lies
in the closed interval `[0, 0.998f]`. -/
theorem C1_spin_in_closed_interval (events : List SDL_Event) :
    ((0.0 : F32) ≤ (Main.handleEvents events Main.state).spinParameter ∧
      (Main.handleEvents events Main.state).spinParameter ≤ 0.998) ∧
    ((0.0 : F32) ≤ (Improved.handleEvents events Improved.state).spinParameter ∧
      (Improved.handleEvents events Improved.state).spinParameter ≤ 0.998) :=
  ⟨main_handleEvents_invariant _ main_spin_handleInput events Main.state (by decide),
   improved_handleEvents_invariant _ improved_spin_handleInput events Improved.state
     (by decide)⟩

/-- C2: in every state reachable from the start-up defaults by a finite sequence of
input events, in both programs, the spin is strictly below 1; its value `a` is a
finite number with `a < 1`, and with `M = 1` the quantity `M² − a²` under the square
root of the horizon radius is strictly positive. -/
theorem C2_spin_below_one_horizon_real (events : List SDL_Event) :
    ((Main.handleEvents events Main.state).spinParameter < (1.0 : F32) ∧
      ∃ a : ℚ, F32.toRat (Main.handleEvents events Main.state).spinParameter = some a ∧
        a < 1 ∧ 0 < horizonDiscriminant 1 a) ∧
    ((Improved.handleEvents events Improved.state).spinParameter < (1.0 : F32) ∧
      ∃ a : ℚ, F32.toRat (Improved.handleEvents events Improved.state).spinParameter = some a ∧
        a < 1 ∧ 0 < horizonDiscriminant 1 a) :=
  ⟨spin_lt_one
    (main_handleEvents_invariant _ main_spin_handleInput events Main.state (by decide)),
   spin_lt_one
    (improved_handleEvents_invariant _ improved_spin_handleInput events Improved.state
      (by decide))⟩

theorem improved_inRange_handleInput (e : SDL_Event) (s : Improved.AppState)
    (h : Improved.InRange s) : Improved.InRange (Improved.handleInput e s) :=
  ⟨improved_inclination_handleInput e s h.1, improved_cameraDistance_handleInput e s h.2.1,
   improved_maxBounces_handleInput e s h.2.2.1, improved_bloomStrength_handleInput e s h.2.2.2⟩

theorem main_inRange_handleInput (e : SDL_Event) (s : Main.AppState)
    (h : Main.InRange s) : Main.InRange (Main.handleInput e s) :=
  ⟨main_inclination_handleInput e s h.1, main_cameraDistance_handleInput e s h.2⟩

theorem inclination_strict {x : F32} (h : (0.1 : F32) ≤ x ∧ x ≤ 89.9) :
    (0.0 : F32) < x ∧ x < 90.0 := by
  rw [F32.lit_0_1, F32.lit_89_9] at h
  obtain ⟨n, rfl, h1, h2⟩ := F32.exists_fin_of_le_of_le h.1 h.2
  rw [F32.lit_0_0, F32.lit_90_0]
  exact ⟨F32.lt_fin_fin.2 (by omega), F32.lt_fin_fin.2 (by omega)⟩

/-- C3: the range predicate (inclination in `[0.1, 89.9]`, camera distance in
`[10, 50]`, bounces in `[1, 5]`, bloom strength in `[0, 2]`) holds for the start-up
defaults of `main_improved.cpp`, is preserved by `handleInput` on every event, and
so holds in every reachable state; it gives an inclination strictly between 0 and
90, at least one bounce and a nonnegative bloom strength.  The same holds for
inclination and camera distance in `main.cpp`. -/
theorem C3_clamped_ranges_invariant :
    (Improved.InRange Improved.state ∧
      (∀ e s, Improved.InRange s → Improved.InRange (Improved.handleInput e s)) ∧
      (∀ events, Improved.InRange (Improved.handleEvents events Improved.state)) ∧
      (∀ s, Improved.InRange s →
        ((0.0 : F32) < s.inclination ∧ s.inclination < 90.0) ∧ 1 ≤ s.maxBounces ∧
          (0.0 : F32) ≤ s.bloomStrength)) ∧
    (Main.InRange Main.state ∧
      (∀ e s, Main.InRange s → Main.InRange (Main.handleInput e s)) ∧
      (∀ events, Main.InRange (Main.handleEvents events Main.state)) ∧
      (∀ s, Main.InRange s → (0.0 : F32) < s.inclination ∧ s.inclination < 90.0)) := by
  have hI : Improved.InRange Improved.state := by
    unfold Improved.InRange
    decide
  have hM : Main.InRange Main.state := by
    unfold Main.InRange
    decide
  exact ⟨⟨hI, improved_inRange_handleInput,
      fun events => improved_handleEvents_invariant _ improved_inRange_handleInput events _ hI,
      fun s h => ⟨inclination_strict h.1, h.2.2.1.1, h.2.2.2.1⟩⟩,
    ⟨hM, main_inRange_handleInput,
      fun events => main_handleEvents_invariant _ main_inRange_handleInput events _ hM,
      fun s h => inclination_strict h.1⟩⟩

/-- C3 (witness): the preservation step applied to the start-up state of
`main_improved.cpp` and a press of W, and to that of `main.cpp` and a press of Q. -/
theorem C3_clamped_ranges_invariant_witness :
    Improved.InRange (Improved.handleInput (key .SDLK_w) Improved.state) ∧
    Main.InRange (Main.handleInput (key .SDLK_q) Main.state) :=
  ⟨C3_clamped_ranges_invariant.1.2.1 (key .SDLK_w) Improved.state
      C3_clamped_ranges_invariant.1.1,
   C3_clamped_ranges_invariant.2.2.1 (key .SDLK_q) Main.state
      C3_clamped_ranges_invariant.2.1⟩

/-- C4: in every state reachable from the start-up defaults by a finite sequence of
input events, in both programs, the exposure is strictly positive; in `float`
arithmetic repeated division by `1.1f` stops at the smallest subnormal and repeated
multiplication ends at `+inf`, neither reaches zero. -/
theorem C4_exposure_positive (events : List SDL_Event) :
    (0.0 : F32) < (Main.handleEvents events Main.state).exposure ∧
    (0.0 : F32) < (Improved.handleEvents events Improved.state).exposure :=
  ⟨main_handleEvents_invariant _ main_exposure_handleInput events Main.state (by decide),
   improved_handleEvents_invariant _ improved_exposure_handleInput events Improved.state
     (by decide)⟩

/-! ### Pause -/

theorem main_handleInput_time (e : SDL_Event) (s : Main.AppState) :
    (Main.handleInput e s).time = s.time := by
  rcases e with _ | sym | _
  · rfl
  · cases sym <;> rfl
  · rfl

theorem improved_handleInput_time (e : SDL_Event) (s : Improved.AppState) :
    (Improved.handleInput e s).time = s.time := by
  rcases e with _ | sym | _
  · rfl
  · cases sym <;> rfl
  · rfl

theorem main_handleEvents_time (es : List SDL_Event) (s : Main.AppState) :
    (Main.handleEvents es s).time = s.time :=
  main_handleEvents_invariant (fun x => x.time = s.time)
    (fun e x h => (main_handleInput_time e x).trans h) es s rfl

theorem improved_handleEvents_time (es : List SDL_Event) (s : Improved.AppState) :
    (Improved.handleEvents es s).time = s.time :=
  improved_handleEvents_invariant (fun x => x.time = s.time)
    (fun e x h => (improved_handleInput_time e x).trans h) es s rfl

theorem main_handleInput_paused (e : SDL_Event) (s : Main.AppState)
    (he : e ≠ key .SDLK_SPACE) : (Main.handleInput e s).paused = s.paused := by
  rcases e with _ | sym | _
  · rfl
  · cases sym <;> first | rfl | exact absurd rfl he
  · rfl

theorem improved_handleInput_paused (e : SDL_Event) (s : Improved.AppState)
    (he : e ≠ key .SDLK_SPACE) : (Improved.handleInput e s).paused = s.paused := by
  rcases e with _ | sym | _
  · rfl
  · cases sym <;> first | rfl | exact absurd rfl he
  · rfl

theorem main_handleEvents_paused (es : List SDL_Event) :
    ∀ s : Main.AppState, (∀ e ∈ es, e ≠ key .SDLK_SPACE) →
      (Main.handleEvents es s).paused = s.paused := by
  induction es with
  | nil => exact fun s _ => rfl
  | cons e es ih =>
    intro s h
    exact (ih _ (fun x hx => h x (List.mem_cons_of_mem _ hx))).trans
      (main_handleInput_paused e s (h e (List.mem_cons_self _ _)))

theorem improved_handleEvents_paused (es : List SDL_Event) :
    ∀ s : Improved.AppState, (∀ e ∈ es, e ≠ key .SDLK_SPACE) →
      (Improved.handleEvents es s).paused = s.paused := by
  induction es with
  | nil => exact fun s _ => rfl
  | cons e es ih =>
    intro s h
    exact (ih _ (fun x hx => h x (List.mem_cons_of_mem _ hx))).trans
      (improved_handleInput_paused e s (h e (List.mem_cons_self _ _)))

theorem main_advance_paused (dt : F32) (s : Main.AppState) (h : s.paused = true) :
    Main.advance dt s = s := by
  simp [Main.advance, h]

theorem improved_advance_paused (dt : F32) (s : Improved.AppState) (h : s.paused = true) :
    Improved.advance dt s = s := by
  simp [Improved.advance, h]

theorem main_frame_paused (inp : FrameInput) (L : Main.LoopState)
    (h : L.state.paused = true) :
    (Main.frame inp L).1.state = Main.handleEvents inp.events L.state ∧
    (Main.frame inp L).2.uniforms.uTime = L.state.time := by
  unfold Main.frame
  simp only [main_advance_paused _ _ h]
  exact ⟨trivial, main_handleEvents_time _ _⟩

theorem improved_frame_paused (inp : FrameInput) (L : Improved.LoopState)
    (h : L.state.paused = true) :
    (Improved.frame inp L).1.state = Improved.handleEvents inp.events L.state ∧
    (Improved.frame inp L).2.uniforms.uTime = L.state.time := by
  unfold Improved.frame
  simp only [improved_advance_paused _ _ h]
  exact ⟨trivial, improved_handleEvents_time _ _⟩

theorem main_mainLoop_paused (frames : List FrameInput) (last : FrameInput) :
    ∀ L : Main.LoopState, L.state.paused = true →
      (∀ f ∈ frames, ∀ e ∈ f.events, e ≠ key .SDLK_SPACE) →
      ∀ d ∈ (Main.mainLoop (frames ++ [last]) L).2, d.uniforms.uTime = L.state.time := by
  induction frames with
  | nil =>
    intro L hp _ d hd
    simp only [List.nil_append, Main.mainLoop] at hd
    split at hd
    · simp only [List.mem_singleton] at hd
      rw [hd]
      exact (main_frame_paused last L hp).2
    · simp at hd
  | cons f rest ih =>
    intro L hp hns d hd
    simp only [List.cons_append, Main.mainLoop] at hd
    split at hd
    · obtain ⟨h1, h2⟩ := main_frame_paused f L hp
      have hp2 : (Main.frame f L).1.state.paused = true := by
        rw [h1, main_handleEvents_paused _ _ (hns f (List.mem_cons_self _ _))]
        exact hp
      have ht2 : (Main.frame f L).1.state.time = L.state.time := by
        rw [h1]
        exact main_handleEvents_time _ _
      rcases List.mem_cons.1 hd with hd | hd
      · rw [hd]
        exact h2
      · rw [← ht2]
        exact ih _ hp2 (fun g hg => hns g (List.mem_cons_of_mem _ hg)) d hd
    · simp at hd

theorem improved_mainLoop_paused (frames : List FrameInput) (last : FrameInput) :
    ∀ L : Improved.LoopState, L.state.paused = true →
      (∀ f ∈ frames, ∀ e ∈ f.events, e ≠ key .SDLK_SPACE) →
      ∀ d ∈ (Improved.mainLoop (frames ++ [last]) L).2, d.uniforms.uTime = L.state.time := by
  induction frames with
  | nil =>
    intro L hp _ d hd
    simp only [List.nil_append, Improved.mainLoop] at hd
    split at hd
    · simp only [List.mem_singleton] at hd
      rw [hd]
      exact (improved_frame_paused last L hp).2
    · simp at hd
  | cons f rest ih =>
    intro L hp hns d hd
    simp only [List.cons_append, Improved.mainLoop] at hd
    split at hd
    · obtain ⟨h1, h2⟩ := improved_frame_paused f L hp
      have hp2 : (Improved.frame f L).1.state.paused = true := by
        rw [h1, improved_handleEvents_paused _ _ (hns f (List.mem_cons_self _ _))]
        exact hp
      have ht2 : (Improved.frame f L).1.state.time = L.state.time := by
        rw [h1]
        exact improved_handleEvents_time _ _
      rcases List.mem_cons.1 hd with hd | hd
      · rw [hd]
        exact h2
      · rw [← ht2]
        exact ih _ hp2 (fun g hg => hns g (List.mem_cons_of_mem _ hg)) d hd
    · simp at hd

/-- C5: while `paused` is set, the value of `uTime` handed to the kernel does not
change, in both programs.  For a state with `paused = true` (as the pause command
leaves it) the rest of the pass dispatches the state's `time` whatever other
events are handled; and from loop variables with `paused = true`, through any
passes whose events contain no press of Space, with any tick readings, and through
one further pass with arbitrary events (the pass in which Space resumes), every
dispatch is given that same `time`. -/
theorem C5_paused_time_frozen :
    ((∀ (s : Main.AppState) (es : List SDL_Event), s.paused = true →
        (∀ e ∈ es, e ≠ key .SDLK_SPACE) →
        (Main.handleEvents es s).paused = true ∧
          (Main.dispatch (Main.handleEvents es s)).uniforms.uTime = s.time) ∧
      (∀ (L : Main.LoopState) (frames : List FrameInput) (last : FrameInput),
        L.state.paused = true →
        (∀ f ∈ frames, ∀ e ∈ f.events, e ≠ key .SDLK_SPACE) →
        ∀ d ∈ (Main.mainLoop (frames ++ [last]) L).2, d.uniforms.uTime = L.state.time)) ∧
    ((∀ (s : Improved.AppState) (es : List SDL_Event), s.paused = true →
        (∀ e ∈ es, e ≠ key .SDLK_SPACE) →
        (Improved.handleEvents es s).paused = true ∧
          (Improved.dispatch (Improved.handleEvents es s)).uniforms.uTime = s.time) ∧
      (∀ (L : Improved.LoopState) (frames : List FrameInput) (last : FrameInput),
        L.state.paused = true →
        (∀ f ∈ frames, ∀ e ∈ f.events, e ≠ key .SDLK_SPACE) →
        ∀ d ∈ (Improved.mainLoop (frames ++ [last]) L).2,
          d.uniforms.uTime = L.state.time)) :=
  ⟨⟨fun s es hp hns =>
      ⟨(main_handleEvents_paused es s hns).trans hp, main_handleEvents_time es s⟩,
    fun L frames last hp hns => main_mainLoop_paused frames last L hp hns⟩,
   ⟨fun s es hp hns =>
      ⟨(improved_handleEvents_paused es s hns).trans hp, improved_handleEvents_time es s⟩,
    fun L frames last hp hns => improved_mainLoop_paused frames last L hp hns⟩⟩

/-- C5 (witness): pause in the first pass, then a pass with exposure-up and spin-up,
then the pass in which Space resumes: all dispatches after the pause carry the time
at which it was paused. -/
theorem C5_paused_time_frozen_witness :
    (Main.pausedLoop.state.paused = true ∧
      ∀ d ∈ (Main.mainLoop ([{ ticks := 33, events := [key .SDLK_UP, key .SDLK_d] }] ++
          [{ ticks := 50, events := [key .SDLK_SPACE] }]) Main.pausedLoop).2,
        d.uniforms.uTime = Main.pausedLoop.state.time) ∧
    (Improved.pausedLoop.state.paused = true ∧
      ∀ d ∈ (Improved.mainLoop ([{ ticks := 33, events := [key .SDLK_UP, key .SDLK_r] }] ++
          [{ ticks := 50, events := [key .SDLK_SPACE] }]) Improved.pausedLoop).2,
        d.uniforms.uTime = Improved.pausedLoop.state.time) :=
  ⟨⟨by decide, C5_paused_time_frozen.1.2 Main.pausedLoop _ _ (by decide) (by decide)⟩,
   ⟨by decide, C5_paused_time_frozen.2.2 Improved.pausedLoop _ _ (by decide) (by decide)⟩⟩

/-! ### Adjustment commands -/

namespace F32

theorem isClampOf_min_max {lo hi : ℤ} (hlh : lo ≤ hi) (v : F32) :
    IsClampOf (fin lo) (fin hi) v (min (fin hi) (max (fin lo) v)) := by
  refine ⟨rfl, ?_, ?_, ?_⟩
  · intro h1 h2
    rw [max_eq_of_le h1, min_eq_of_le h2]
  · intro h
    cases v with
    | fin n =>
      have hn : n < lo := lt_fin_fin.1 h
      have e1 : max (fin lo) (fin n) = fin lo := by
        simp [max, lt, not_lt.2 hn.le]
      rw [e1]
      exact min_eq_of_le (le_fin_fin.2 hlh)
    | pinf => exact absurd h (by show ¬ (lt pinf (fin lo) = true); simp [lt])
    | ninf =>
      have e1 : max (fin lo) ninf = fin lo := by simp [max, lt]
      rw [e1]
      exact min_eq_of_le (le_fin_fin.2 hlh)
    | nan => exact absurd h (by show ¬ (lt nan (fin lo) = true); simp [lt])
  · intro h
    cases v with
    | fin n =>
      have hn : hi < n := lt_fin_fin.1 h
      have e1 : max (fin lo) (fin n) = fin n := by
        simp [max, lt, lt_of_le_of_lt hlh hn]
      rw [e1]
      simp [min, lt, not_lt.2 hn.le]
    | pinf =>
      have e1 : max (fin lo) pinf = pinf := by simp [max, lt]
      rw [e1]
      simp [min, lt]
    | ninf => exact absurd h (by show ¬ (lt (fin hi) ninf = true); simp [lt])
    | nan => exact absurd h (by show ¬ (lt (fin hi) nan = true); simp [lt])

theorem isClampOf_dec {x : F32} {lo hi s : ℤ} (hhi : Representable hi) (hlh : lo ≤ hi)
    (hs : 0 ≤ s) (h : fin lo ≤ x ∧ x ≤ fin hi) :
    IsClampOf (fin lo) (fin hi) (x - fin s) (max (fin lo) (x - fin s)) := by
  have e : max (fin lo) (x - fin s) = min (fin hi) (max (fin lo) (x - fin s)) :=
    (min_eq_of_le (clamp_sub hhi hlh hs h.1 h.2).2).symm
  have k := isClampOf_min_max hlh (x - fin s)
  rw [← e] at k
  exact k

theorem isClampOf_inc {x : F32} {lo hi s : ℤ} (hlo : Representable lo) (hlh : lo ≤ hi)
    (hs : 0 ≤ s) (h : fin lo ≤ x ∧ x ≤ fin hi) :
    IsClampOf (fin lo) (fin hi) (x + fin s) (min (fin hi) (x + fin s)) := by
  obtain ⟨n, rfl, hn, _⟩ := exists_fin_of_le_of_le h.1 h.2
  have e : max (fin lo) (fin n + fin s) = fin n + fin s :=
    max_eq_of_le (le_add_of_le hlo hn hs)
  have k := isClampOf_min_max hlh (fin n + fin s)
  rw [e] at k
  exact k

end F32

theorem intIsClampOf_dec {m : ℤ} (h : 1 ≤ m ∧ m ≤ 5) :
    IntIsClampOf 1 5 (m - 1) (intMax 1 (wrapInt (m - 1))) := by
  unfold IntIsClampOf intMin intMax wrapInt
  refine ⟨?_, ?_, ?_, ?_⟩
  · split_ifs <;> omega
  · intro _ _
    split_ifs <;> omega
  · intro _
    split_ifs <;> omega
  · intro _
    split_ifs <;> omega

theorem intIsClampOf_inc {m : ℤ} (h : 1 ≤ m ∧ m ≤ 5) :
    IntIsClampOf 1 5 (m + 1) (intMin 5 (wrapInt (m + 1))) := by
  unfold IntIsClampOf intMin intMax wrapInt
  refine ⟨?_, ?_, ?_, ?_⟩
  · split_ifs <;> omega
  · intro _ _
    split_ifs <;> omega
  · intro _
    split_ifs <;> omega
  · intro _
    split_ifs <;> omega

/-- C6: for every increment or decrement command on spin, inclination, camera
distance, bounces or bloom strength, and every pre-state in which that parameter
lies in its range (spin `[0, 0.998]`, inclination `[0.1, 89.9]`, camera distance
`[10, 50]`, bounces `[1, 5]`, bloom strength `[0, 2]`), `handleInput` yields a state
whose new value is `min(hi, max(lo, old ± step))`, with steps `0.05`, `2`, `1`, `1`,
`0.1`: the stepped value when that is in range, otherwise the nearest bound.  The
bounds, steps and `±` are the `float` literals and `float` operations of the source
(`int` for the bounces). -/
theorem C6_adjustments_clamp_to_range :
    (∀ s : Improved.AppState,
      (((0.0 : F32) ≤ s.spinParameter ∧ s.spinParameter ≤ 0.998) →
        F32.IsClampOf 0.0 0.998 (s.spinParameter - 0.05)
          (Improved.handleInput (key .SDLK_a) s).spinParameter ∧
        F32.IsClampOf 0.0 0.998 (s.spinParameter + 0.05)
          (Improved.handleInput (key .SDLK_d) s).spinParameter) ∧
      (((0.1 : F32) ≤ s.inclination ∧ s.inclination ≤ 89.9) →
        F32.IsClampOf 0.1 89.9 (s.inclination - 2.0)
          (Improved.handleInput (key .SDLK_s) s).inclination ∧
        F32.IsClampOf 0.1 89.9 (s.inclination + 2.0)
          (Improved.handleInput (key .SDLK_w) s).inclination) ∧
      (((10.0 : F32) ≤ s.cameraDistance ∧ s.cameraDistance ≤ 50.0) →
        F32.IsClampOf 10.0 50.0 (s.cameraDistance - 1.0)
          (Improved.handleInput (key .SDLK_q) s).cameraDistance ∧
        F32.IsClampOf 10.0 50.0 (s.cameraDistance + 1.0)
          (Improved.handleInput (key .SDLK_e) s).cameraDistance) ∧
      ((1 ≤ s.maxBounces ∧ s.maxBounces ≤ 5) →
        IntIsClampOf 1 5 (s.maxBounces - 1)
          (Improved.handleInput (key .SDLK_1) s).maxBounces ∧
        IntIsClampOf 1 5 (s.maxBounces + 1)
          (Improved.handleInput (key .SDLK_2) s).maxBounces) ∧
      (((0.0 : F32) ≤ s.bloomStrength ∧ s.bloomStrength ≤ 2.0) →
        F32.IsClampOf 0.0 2.0 (s.bloomStrength - 0.1)
          (Improved.handleInput (key .SDLK_3) s).bloomStrength ∧
        F32.IsClampOf 0.0 2.0 (s.bloomStrength + 0.1)
          (Improved.handleInput (key .SDLK_4) s).bloomStrength)) ∧
    (∀ s : Main.AppState,
      (((0.0 : F32) ≤ s.spinParameter ∧ s.spinParameter ≤ 0.998) →
        F32.IsClampOf 0.0 0.998 (s.spinParameter - 0.05)
          (Main.handleInput (key .SDLK_a) s).spinParameter ∧
        F32.IsClampOf 0.0 0.998 (s.spinParameter + 0.05)
          (Main.handleInput (key .SDLK_d) s).spinParameter) ∧
      (((0.1 : F32) ≤ s.inclination ∧ s.inclination ≤ 89.9) →
        F32.IsClampOf 0.1 89.9 (s.inclination - 2.0)
          (Main.handleInput (key .SDLK_s) s).inclination ∧
        F32.IsClampOf 0.1 89.9 (s.inclination + 2.0)
          (Main.handleInput (key .SDLK_w) s).inclination) ∧
      (((10.0 : F32) ≤ s.cameraDistance ∧ s.cameraDistance ≤ 50.0) →
        F32.IsClampOf 10.0 50.0 (s.cameraDistance - 1.0)
          (Main.handleInput (key .SDLK_q) s).cameraDistance ∧
        F32.IsClampOf 10.0 50.0 (s.cameraDistance + 1.0)
          (Main.handleInput (key .SDLK_e) s).cameraDistance)) := by
  refine ⟨fun s => ⟨?_, ?_, ?_, ?_, ?_⟩, fun s => ⟨?_, ?_, ?_⟩⟩
  · intro h
    simp only [Improved.handleInput]
    rw [F32.lit_0_0, F32.lit_0_998, F32.lit_0_05] at *
    exact ⟨F32.isClampOf_dec F32.rep_0_998 (by norm_num) (by norm_num) h,
      F32.isClampOf_inc F32.rep_0 (by norm_num) (by norm_num) h⟩
  · intro h
    simp only [Improved.handleInput]
    rw [F32.lit_0_1, F32.lit_89_9, F32.lit_2_0] at *
    exact ⟨F32.isClampOf_dec F32.rep_89_9 (by norm_num) (by norm_num) h,
      F32.isClampOf_inc F32.rep_0_1 (by norm_num) (by norm_num) h⟩
  · intro h
    simp only [Improved.handleInput]
    rw [F32.lit_10_0, F32.lit_50_0, F32.lit_1_0] at *
    exact ⟨F32.isClampOf_dec F32.rep_50_0 (by norm_num) (by norm_num) h,
      F32.isClampOf_inc F32.rep_10_0 (by norm_num) (by norm_num) h⟩
  · intro h
    exact ⟨intIsClampOf_dec h, intIsClampOf_inc h⟩
  · intro h
    simp only [Improved.handleInput]
    rw [F32.lit_0_0, F32.lit_2_0, F32.lit_0_1] at *
    exact ⟨F32.isClampOf_dec F32.rep_2_0 (by norm_num) (by norm_num) h,
      F32.isClampOf_inc F32.rep_0 (by norm_num) (by norm_num) h⟩
  · intro h
    simp only [Main.handleInput]
    rw [F32.lit_0_0, F32.lit_0_998, F32.lit_0_05] at *
    exact ⟨F32.isClampOf_dec F32.rep_0_998 (by norm_num) (by norm_num) h,
      F32.isClampOf_inc F32.rep_0 (by norm_num) (by norm_num) h⟩
  · intro h
    simp only [Main.handleInput]
    rw [F32.lit_0_1, F32.lit_89_9, F32.lit_2_0] at *
    exact ⟨F32.isClampOf_dec F32.rep_89_9 (by norm_num) (by norm_num) h,
      F32.isClampOf_inc F32.rep_0_1 (by norm_num) (by norm_num) h⟩
  · intro h
    simp only [Main.handleInput]
    rw [F32.lit_10_0, F32.lit_50_0, F32.lit_1_0] at *
    exact ⟨F32.isClampOf_dec F32.rep_50_0 (by norm_num) (by norm_num) h,
      F32.isClampOf_inc F32.rep_10_0 (by norm_num) (by norm_num) h⟩

/-- C6 (witness): the start-up state of `main_improved.cpp`, whose spin `0.9` and
bounce count `3` are in range, under spin-up and bounces-down; and that of `main.cpp`
under distance-down. -/
theorem C6_adjustments_clamp_to_range_witness :
    (((0.0 : F32) ≤ Improved.state.spinParameter ∧ Improved.state.spinParameter ≤ 0.998) ∧
      F32.IsClampOf 0.0 0.998 (Improved.state.spinParameter + 0.05)
        (Improved.handleInput (key .SDLK_d) Improved.state).spinParameter) ∧
    ((1 ≤ Improved.state.maxBounces ∧ Improved.state.maxBounces ≤ 5) ∧
      IntIsClampOf 1 5 (Improved.state.maxBounces - 1)
        (Improved.handleInput (key .SDLK_1) Improved.state).maxBounces) ∧
    (((10.0 : F32) ≤ Main.state.cameraDistance ∧ Main.state.cameraDistance ≤ 50.0) ∧
      F32.IsClampOf 10.0 50.0 (Main.state.cameraDistance - 1.0)
        (Main.handleInput (key .SDLK_q) Main.state).cameraDistance) :=
  ⟨⟨by decide, ((C6_adjustments_clamp_to_range.1 Improved.state).1 (by decide)).2⟩,
   ⟨by decide, ((C6_adjustments_clamp_to_range.1 Improved.state).2.2.2.1 (by decide)).1⟩,
   ⟨by decide, ((C6_adjustments_clamp_to_range.2 Main.state).2.2 (by decide)).1⟩⟩

/-! ### Reset and bloom -/

/-- C7: from any state, the reset command (key R) of `main_improved.cpp` sets spin,
exposure, inclination, camera distance, bounces and bloom strength to `0.9`, `1.2`,
`85`, `25`, `3`, `0.5`, which are the values of these fields at start-up. -/
theorem C7_reset_restores_defaults (s : Improved.AppState) :
    ((Improved.handleInput (key .SDLK_r) s).spinParameter = 0.9 ∧
      (Improved.handleInput (key .SDLK_r) s).exposure = 1.2 ∧
      (Improved.handleInput (key .SDLK_r) s).inclination = 85.0 ∧
      (Improved.handleInput (key .SDLK_r) s).cameraDistance = 25.0 ∧
      (Improved.handleInput (key .SDLK_r) s).maxBounces = 3 ∧
      (Improved.handleInput (key .SDLK_r) s).bloomStrength = 0.5) ∧
    ((Improved.handleInput (key .SDLK_r) s).spinParameter = Improved.state.spinParameter ∧
      (Improved.handleInput (key .SDLK_r) s).exposure = Improved.state.exposure ∧
      (Improved.handleInput (key .SDLK_r) s).inclination = Improved.state.inclination ∧
      (Improved.handleInput (key .SDLK_r) s).cameraDistance = Improved.state.cameraDistance ∧
      (Improved.handleInput (key .SDLK_r) s).maxBounces = Improved.state.maxBounces ∧
      (Improved.handleInput (key .SDLK_r) s).bloomStrength = Improved.state.bloomStrength) :=
  ⟨⟨rfl, rfl, rfl, rfl, rfl, rfl⟩, ⟨rfl, rfl, rfl, rfl, rfl, rfl⟩⟩

/-- C8: in every state of `main_improved.cpp` with bloom disabled the dispatch hands
the kernel `uBloomStrength = 0`, and every other kernel input (`uTime`,
`uSpinParameter`, `uExposure`, `uInclination`, `uCameraDistance`, `uResolution`,
`uMaxBounces`, and the work-group counts) is what the same state with bloom enabled
hands over; the toggle command (key B) flips `enableBloom` and changes nothing
else. -/
theorem C8_bloom_disabled_zero_strength (s : Improved.AppState)
    (h : s.enableBloom = false) :
    (Improved.dispatch s).uniforms.uBloomStrength = 0.0 ∧
    (Improved.dispatch { s with enableBloom := true }).uniforms.uBloomStrength
      = s.bloomStrength ∧
    (Improved.dispatch s).uniforms.uTime
      = (Improved.dispatch { s with enableBloom := true }).uniforms.uTime ∧
    (Improved.dispatch s).uniforms.uSpinParameter
      = (Improved.dispatch { s with enableBloom := true }).uniforms.uSpinParameter ∧
    (Improved.dispatch s).uniforms.uExposure
      = (Improved.dispatch { s with enableBloom := true }).uniforms.uExposure ∧
    (Improved.dispatch s).uniforms.uInclination
      = (Improved.dispatch { s with enableBloom := true }).uniforms.uInclination ∧
    (Improved.dispatch s).uniforms.uCameraDistance
      = (Improved.dispatch { s with enableBloom := true }).uniforms.uCameraDistance ∧
    (Improved.dispatch s).uniforms.uResolution
      = (Improved.dispatch { s with enableBloom := true }).uniforms.uResolution ∧
    (Improved.dispatch s).uniforms.uMaxBounces
      = (Improved.dispatch { s with enableBloom := true }).uniforms.uMaxBounces ∧
    (Improved.dispatch s).groups
      = (Improved.dispatch { s with enableBloom := true }).groups ∧
    (∀ t : Improved.AppState,
      Improved.handleInput (key .SDLK_b) t = { t with enableBloom := !t.enableBloom }) := by
  refine ⟨?_, rfl, rfl, rfl, rfl, rfl, rfl, rfl, rfl, rfl, fun t => rfl⟩
  simp [Improved.dispatch, h]

/-- C8 (witness): the start-up state with bloom switched off by one press of B. -/
theorem C8_bloom_disabled_zero_strength_witness :
    (Improved.handleInput (key .SDLK_b) Improved.state).enableBloom = false ∧
    (Improved.dispatch (Improved.handleInput (key .SDLK_b) Improved.state)).uniforms.uBloomStrength
      = 0.0 :=
  ⟨rfl, (C8_bloom_disabled_zero_strength
    (Improved.handleInput (key .SDLK_b) Improved.state) rfl).1⟩

/-! ### Start-up: loading the shader assets -/

theorem linux_writePixels_eq (pixels : Linux.Buffer) (n m : ℕ) (hn : n = 4 * m)
    (hsize : n ≤ pixels.size) :
    ∀ (r j : ℕ) (out : List ℕ), j + r = m →
      Linux.writePixels pixels n (4 * j) out =
        some (out ++ (List.range' j r).flatMap fun k =>
          Linux.pixelBytes (pixels.data (4 * k)) (pixels.data (4 * k + 1))
            (pixels.data (4 * k + 2))) := by
  subst hn
  intro r
  induction r with
  | zero =>
    intro j out hj
    rw [Linux.writePixels, if_neg (by omega)]
    simp
  | succ r ih =>
    intro j out hj
    rw [Linux.writePixels, if_pos (by omega)]
    have r0 : pixels.read (4 * j) = some (pixels.data (4 * j)) := by
      unfold Linux.Buffer.read
      rw [if_pos (by omega)]
    have r1 : pixels.read (4 * j + 1) = some (pixels.data (4 * j + 1)) := by
      unfold Linux.Buffer.read
      rw [if_pos (by omega)]
    have r2 : pixels.read (4 * j + 2) = some (pixels.data (4 * j + 2)) := by
      unfold Linux.Buffer.read
      rw [if_pos (by omega)]
    rw [r0, r1, r2]
    simp only []
    have e : 4 * j + 4 = 4 * (j + 1) := by ring
    rw [e, ih (j + 1) _ (by omega), List.range'_succ, List.flatMap_cons, List.append_assoc]

theorem linux_writePixels_all (tex : ℕ → F32) (m : ℕ) :
    Linux.writePixels { size := m * 4, data := tex } (m * 4) 0 [] =
      some (Linux.expectedBody tex m) := by
  have h := linux_writePixels_eq { size := m * 4, data := tex } (m * 4) m (by ring)
    (le_refl _) m 0 [] (by omega)
  rw [Nat.mul_zero] at h
  rw [h]
  simp only [List.nil_append, Linux.expectedBody, List.range_eq_range']

theorem linux_savePPM_eq (tex : ℕ → F32) :
    Linux.savePPM { size := Linux.WIDTH * Linux.HEIGHT * 4, data := tex } =
      some { header := Linux.header
             body := Linux.expectedBody tex (Linux.WIDTH * Linux.HEIGHT) } := by
  have key : ∀ m : ℕ, Linux.savePPM { size := m * 4, data := tex } =
      (match Linux.writePixels { size := m * 4, data := tex } (Linux.WIDTH * Linux.HEIGHT * 4)
          0 [] with
        | some body => some { header := Linux.header, body := body }
        | none => none) := fun m => rfl
  rw [key, linux_writePixels_all tex (Linux.WIDTH * Linux.HEIGHT)]

theorem linux_pixelBytes_length (r g b : F32) : (Linux.pixelBytes r g b).length = 3 := rfl

theorem linux_expectedBody_succ (tex : ℕ → F32) (n : ℕ) :
    Linux.expectedBody tex (n + 1) =
      Linux.expectedBody tex n ++
        Linux.pixelBytes (tex (4 * n)) (tex (4 * n + 1)) (tex (4 * n + 2)) := by
  unfold Linux.expectedBody
  rw [List.range_succ, List.flatMap_append, List.flatMap_singleton]

theorem linux_expectedBody_length (tex : ℕ → F32) (n : ℕ) :
    (Linux.expectedBody tex n).length = 3 * n := by
  induction n with
  | zero => rfl
  | succ n ih =>
    rw [linux_expectedBody_succ, List.length_append, ih, linux_pixelBytes_length]
    ring

theorem linux_expectedBody_get (tex : ℕ → F32) (n k c : ℕ) (hk : k < n) (hc : c < 3) :
    (Linux.expectedBody tex n)[3 * k + c]? =
      (Linux.pixelBytes (tex (4 * k)) (tex (4 * k + 1)) (tex (4 * k + 2)))[c]? := by
  induction n with
  | zero => omega
  | succ n ih =>
    rw [linux_expectedBody_succ]
    rcases Nat.lt_or_ge k n with h | h
    · rw [List.getElem?_append_left (by rw [linux_expectedBody_length]; omega)]
      exact ih h
    · have hkn : k = n := by omega
      subst hkn
      rw [List.getElem?_append_right (by rw [linux_expectedBody_length]; omega),
        linux_expectedBody_length]
      congr 1
      omega

theorem linux_expectedBody_congr (tex tex' : ℕ → F32) (n : ℕ)
    (h : ∀ i, i % 4 ≠ 3 → tex' i = tex i) :
    Linux.expectedBody tex' n = Linux.expectedBody tex n := by
  unfold Linux.expectedBody
  congr 1
  funext k
  rw [h (4 * k) (by omega), h (4 * k + 1) (by omega), h (4 * k + 2) (by omega)]

theorem linux_header_eq : Linux.header = "P6\n1920 1080\n255\n" := by decide

theorem linux_body_samples (tex : ℕ → F32) (n k : ℕ) (hk : k < n) :
    (Linux.expectedBody tex n)[3 * k]? = some (Linux.toUChar (tex (4 * k) * F32.ofInt 255)) ∧
    (Linux.expectedBody tex n)[3 * k + 1]? =
      some (Linux.toUChar (tex (4 * k + 1) * F32.ofInt 255)) ∧
    (Linux.expectedBody tex n)[3 * k + 2]? =
      some (Linux.toUChar (tex (4 * k + 2) * F32.ofInt 255)) :=
  ⟨linux_expectedBody_get tex n k 0 hk (by norm_num),
   linux_expectedBody_get tex n k 1 hk (by norm_num),
   linux_expectedBody_get tex n k 2 hk (by norm_num)⟩

/-- C10: the still-frame export of `main_linux.cpp`, for any contents of the
read-back buffer of `WIDTH*HEIGHT*4` floats, writes the header `P6`, `1920 1080`,
`255`, followed by exactly `3*WIDTH*HEIGHT` sample bytes: for every pixel index
`k < WIDTH*HEIGHT`, in buffer (row-major) order, bytes `3k`, `3k+1`, `3k+2` are the
conversions of the floats at `4k`, `4k+1`, `4k+2`; the body is the concatenation over
`k = 0 .. WIDTH*HEIGHT-1` of these triples, so each pixel is visited once; the alpha
floats at `4k+3` do not influence the file; and no read falls outside the buffer
(the export yields a file).  When start-up succeeds, this file is the output of
`main`, after its single dispatch. -/
theorem C10_ppm_export_layout (tex : ℕ → F32) :
    Linux.savePPM { size := Linux.WIDTH * Linux.HEIGHT * 4, data := tex } =
      some { header := "P6\n1920 1080\n255\n"
             body := Linux.expectedBody tex (Linux.WIDTH * Linux.HEIGHT) } ∧
    (Linux.expectedBody tex (Linux.WIDTH * Linux.HEIGHT)).length = 3 * (1920 * 1080) ∧
    (∀ k, k < Linux.WIDTH * Linux.HEIGHT →
      (Linux.expectedBody tex (Linux.WIDTH * Linux.HEIGHT))[3 * k]? =
        some (Linux.toUChar (tex (4 * k) * F32.ofInt 255)) ∧
      (Linux.expectedBody tex (Linux.WIDTH * Linux.HEIGHT))[3 * k + 1]? =
        some (Linux.toUChar (tex (4 * k + 1) * F32.ofInt 255)) ∧
      (Linux.expectedBody tex (Linux.WIDTH * Linux.HEIGHT))[3 * k + 2]? =
        some (Linux.toUChar (tex (4 * k + 2) * F32.ofInt 255))) ∧
    (∀ x y, x < Linux.WIDTH → y < Linux.HEIGHT →
      (Linux.expectedBody tex (Linux.WIDTH * Linux.HEIGHT))[3 * (y * Linux.WIDTH + x)]? =
        some (Linux.toUChar (tex (4 * (y * Linux.WIDTH + x)) * F32.ofInt 255)) ∧
      (Linux.expectedBody tex (Linux.WIDTH * Linux.HEIGHT))[3 * (y * Linux.WIDTH + x) + 1]? =
        some (Linux.toUChar (tex (4 * (y * Linux.WIDTH + x) + 1) * F32.ofInt 255)) ∧
      (Linux.expectedBody tex (Linux.WIDTH * Linux.HEIGHT))[3 * (y * Linux.WIDTH + x) + 2]? =
        some (Linux.toUChar (tex (4 * (y * Linux.WIDTH + x) + 2) * F32.ofInt 255))) ∧
    (∀ tex' : ℕ → F32, (∀ i, i % 4 ≠ 3 → tex' i = tex i) →
      Linux.savePPM { size := Linux.WIDTH * Linux.HEIGHT * 4, data := tex' } =
        Linux.savePPM { size := Linux.WIDTH * Linux.HEIGHT * 4, data := tex }) ∧
    (∀ env : Linux.Env, Linux.restOk env → ¬ Linux.assetMissing env.files →
      env.texImage = tex →
      (Linux.main env).output =
          Linux.savePPM { size := Linux.WIDTH * Linux.HEIGHT * 4, data := tex } ∧
        (Linux.main env).exitCode = 0 ∧ (Linux.main env).dispatches = [Linux.dispatch]) := by
  refine ⟨?_, ?_, ?_, ?_, ?_, ?_⟩
  · rw [linux_savePPM_eq tex, linux_header_eq]
  · rw [linux_expectedBody_length]
    decide
  · intro k hk
    exact linux_body_samples tex _ k hk
  · intro x y hx hy
    apply linux_body_samples tex _ (y * Linux.WIDTH + x)
    have h1 : y * Linux.WIDTH + Linux.WIDTH ≤ Linux.HEIGHT * Linux.WIDTH := by
      have : (y + 1) * Linux.WIDTH ≤ Linux.HEIGHT * Linux.WIDTH :=
        Nat.mul_le_mul_right _ hy
      rw [Nat.add_mul, Nat.one_mul] at this
      exact this
    rw [Nat.mul_comm Linux.WIDTH Linux.HEIGHT]
    omega
  · intro tex' h
    rw [linux_savePPM_eq tex', linux_savePPM_eq tex, linux_expectedBody_congr tex tex' _ h]
  · intro env hok hm ht
    obtain ⟨h1, h2, h3, h4⟩ := hok
    unfold Linux.assetMissing at hm
    unfold Linux.main
    simp only [h1, h2, h3 _, h4, hm, Bool.not_true, Bool.false_eq_true, if_false, ht]
    exact ⟨trivial, trivial, trivial⟩

/-- C10 (witness): for the all-red image the last pixel, index `2073599`, is inside
the image and its three bytes in the file are `255, 0, 0`. -/
theorem C10_ppm_export_layout_witness :
    2073599 < Linux.WIDTH * Linux.HEIGHT ∧
    Linux.toUChar (Linux.redImage (4 * 2073599) * F32.ofInt 255) = 255 ∧
    Linux.toUChar (Linux.redImage (4 * 2073599 + 1) * F32.ofInt 255) = 0 ∧
    Linux.toUChar (Linux.redImage (4 * 2073599 + 2) * F32.ofInt 255) = 0 ∧
    (Linux.expectedBody Linux.redImage (Linux.WIDTH * Linux.HEIGHT))[3 * 2073599]? =
      some (Linux.toUChar (Linux.redImage (4 * 2073599) * F32.ofInt 255)) ∧
    (Linux.expectedBody Linux.redImage (Linux.WIDTH * Linux.HEIGHT))[3 * 2073599 + 1]? =
      some (Linux.toUChar (Linux.redImage (4 * 2073599 + 1) * F32.ofInt 255)) ∧
    (Linux.expectedBody Linux.redImage (Linux.WIDTH * Linux.HEIGHT))[3 * 2073599 + 2]? =
      some (Linux.toUChar (Linux.redImage (4 * 2073599 + 2) * F32.ofInt 255)) :=
  ⟨by decide, by decide, by decide, by decide,
    (C10_ppm_export_layout Linux.redImage).2.2.1 2073599 (by decide)⟩

/-! ### Rounded results are binary32 numbers -/

namespace F32

theorem roundNat_dvd (a d : ℕ) : 2 ^ (log2 (roundNat a d) - 23) ∣ roundNat a d := by
  have hM : rneDiv a (d * 2 ^ (log2 (a / d) - 23)) ≤ 2 ^ 24 :=
    le_trans (rneDiv_le _ _) (@mantissa_lt a d)
  unfold roundNat
  generalize log2 (a / d) - 23 = e at hM ⊢
  generalize rneDiv a (d * 2 ^ e) = M at hM ⊢
  rcases Nat.eq_or_lt_of_le hM with h24 | hlt
  · subst h24
    have hx : (2 : ℕ) ^ 24 * 2 ^ e = 2 ^ (24 + e) := by rw [pow_add]
    rw [hx, log2_eq_of_bounds (le_refl _) (Nat.pow_lt_pow_right (by norm_num) (by omega))]
    exact Nat.pow_dvd_pow 2 (by omega)
  · rcases Nat.eq_zero_or_pos (M * 2 ^ e) with h0 | hpos
    · rw [h0]
      exact Nat.dvd_zero _
    · obtain ⟨h1, _⟩ := log2_spec _ hpos
      have hx : M * 2 ^ e < 2 ^ (24 + e) := by
        rw [pow_add]
        exact Nat.mul_lt_mul_of_pos_right hlt (Nat.pow_pos (by norm_num))
      have hl : log2 (M * 2 ^ e) < 24 + e :=
        (Nat.pow_lt_pow_iff_right (by norm_num : 1 < 2)).1 (lt_of_le_of_lt h1 hx)
      exact Dvd.dvd.mul_left (Nat.pow_dvd_pow 2 (by omega)) M

theorem roundDiv_cases (num : ℤ) (den : ℕ) :
    (roundDiv num den = pinf ∧ 0 ≤ num) ∨ (roundDiv num den = ninf ∧ num < 0) ∨
    ∃ m : ℤ, roundDiv num den = fin m ∧ Representable m ∧ (0 ≤ num → 0 ≤ m) ∧
      (num ≤ 0 → m ≤ 0) := by
  unfold roundDiv
  by_cases hov : maxFinite < roundNat num.natAbs den
  · rw [if_pos hov]
    by_cases hneg : num < 0
    · rw [if_pos hneg]
      exact Or.inr (Or.inl ⟨rfl, hneg⟩)
    · rw [if_neg hneg]
      exact Or.inl ⟨rfl, not_lt.1 hneg⟩
  · rw [if_neg hov]
    refine Or.inr (Or.inr ⟨_, rfl, ?_, ?_, ?_⟩)
    · have hd := roundNat_dvd num.natAbs den
      by_cases hneg : num < 0
      · rw [if_pos hneg]
        unfold Representable
        rw [Int.natAbs_neg, Int.natAbs_ofNat]
        exact ⟨hd, not_lt.1 hov⟩
      · rw [if_neg hneg]
        unfold Representable
        rw [Int.natAbs_ofNat]
        exact ⟨hd, not_lt.1 hov⟩
    · intro h
      rw [if_neg (by omega)]
      exact Int.ofNat_nonneg _
    · intro h
      by_cases hneg : num < 0
      · rw [if_pos hneg]
        have := Int.ofNat_nonneg (roundNat num.natAbs den)
        omega
      · have h0 : num = 0 := by omega
        subst h0
        rw [if_neg hneg]
        have : roundNat (0 : ℤ).natAbs den = 0 := by
          simp [roundNat, rneDiv, log2_zero]
        rw [this]
        rfl

end F32

/-! ### The dispatch is a function of the parameter state -/

/-- C11: the inputs of a compute dispatch are a function of the parameter state and
the fixed resolution only.  In both programs the dispatch of a pass is `dispatch`
of the state the pass ends with, whatever the loop variables `lastTime`,
`frameCount`, `fpsTimer`; two states that agree on time, spin, exposure,
inclination, camera distance (and, in `main_improved.cpp`, bounces and the effective
bloom strength) are handed over as equal dispatches, whatever `paused`, `running`,
`showHelp`; and with the kernel a pure function `render`, equal dispatches give
equal images. -/
theorem C11_dispatch_function_of_parameters :
    ((∀ (inp : FrameInput) (L : Main.LoopState),
        (Main.frame inp L).2 = Main.dispatch (Main.frame inp L).1.state) ∧
      (∀ s t : Main.AppState, s.time = t.time → s.spinParameter = t.spinParameter →
        s.exposure = t.exposure → s.inclination = t.inclination →
        s.cameraDistance = t.cameraDistance →
        Main.dispatch s = Main.dispatch t ∧
          ∀ (Image : Type) (render : Main.Dispatch → Image),
            Main.renderFrame render s = Main.renderFrame render t)) ∧
    ((∀ (inp : FrameInput) (L : Improved.LoopState),
        (Improved.frame inp L).2 = Improved.dispatch (Improved.frame inp L).1.state) ∧
      (∀ s t : Improved.AppState, s.time = t.time → s.spinParameter = t.spinParameter →
        s.exposure = t.exposure → s.inclination = t.inclination →
        s.cameraDistance = t.cameraDistance → s.maxBounces = t.maxBounces →
        (if s.enableBloom then s.bloomStrength else 0.0) =
          (if t.enableBloom then t.bloomStrength else 0.0) →
        Improved.dispatch s = Improved.dispatch t ∧
          ∀ (Image : Type) (render : Improved.Dispatch → Image),
            Improved.renderFrame render s = Improved.renderFrame render t)) := by
  refine ⟨⟨fun inp L => rfl, ?_⟩, ⟨fun inp L => rfl, ?_⟩⟩
  · intro s t h1 h2 h3 h4 h5
    have h : Main.dispatch s = Main.dispatch t := by
      unfold Main.dispatch
      rw [h1, h2, h3, h4, h5]
    exact ⟨h, fun Image render => congrArg render h⟩
  · intro s t h1 h2 h3 h4 h5 h6 h7
    have h : Improved.dispatch s = Improved.dispatch t := by
      unfold Improved.dispatch
      rw [h1, h2, h3, h4, h5, h6, h7]
    exact ⟨h, fun Image render => congrArg render h⟩

/-- C11 (witness): the start-up state of `main_improved.cpp`, and the same state
with the help shown, the animation paused, and bloom switched off at strength zero:
the two are dispatched identically. -/
theorem C11_dispatch_function_of_parameters_witness :
    Improved.dispatch
        { Improved.state with
          showHelp := true, paused := true, enableBloom := false, bloomStrength := 0.0 } =
      Improved.dispatch { Improved.state with enableBloom := true, bloomStrength := 0.0 } :=
  (C11_dispatch_function_of_parameters.2.2
    { Improved.state with
      showHelp := true, paused := true, enableBloom := false, bloomStrength := 0.0 }
    { Improved.state with enableBloom := true, bloomStrength := 0.0 }
    rfl rfl rfl rfl rfl rfl rfl).1

/-! ### The clock -/

namespace F32

theorem lit_1000_0 : (1000.0 : F32) = fin (16384000 * 2 ^ 135) := by decide

theorem rep_two_pow_181 : Representable (2 ^ 181) := by decide

theorem le_refl_fin (t : ℤ) : fin t ≤ fin t := le_fin_fin.2 (le_refl t)

theorem ofInt_natCast_cases (x : ℕ) (hx : x < 2 ^ 32) :
    ∃ a : ℤ, ofInt (x : ℤ) = fin a ∧ 0 ≤ a ∧ a ≤ 2 ^ 181 := by
  have hle : ofInt (x : ℤ) ≤ fin (2 ^ 181) := by
    unfold ofInt
    apply roundDiv_le (by norm_num) rep_two_pow_181
    have h1 : (x : ℤ) ≤ 2 ^ 32 := by exact_mod_cast hx.le
    have h2 : (x : ℤ) * 2 ^ 149 ≤ 2 ^ 32 * 2 ^ 149 :=
      mul_le_mul_of_nonneg_right h1 (by positivity)
    have h3 : (2 : ℤ) ^ 181 * ((1 : ℕ) : ℤ) = 2 ^ 32 * 2 ^ 149 := by norm_num
    rw [h3]
    exact h2
  have hnum : (0 : ℤ) ≤ (x : ℤ) * 2 ^ 149 := by positivity
  rcases roundDiv_cases ((x : ℤ) * 2 ^ 149) 1 with h | h | ⟨m, hm, _, hpos, _⟩
  · unfold ofInt at hle
    rw [h.1] at hle
    exact absurd hle (not_pinf_le_fin _)
  · omega
  · unfold ofInt at hle ⊢
    rw [hm] at hle
    exact ⟨m, hm, hpos hnum, le_fin_fin.1 hle⟩

theorem div_1000_cases {a : ℤ} (h0 : 0 ≤ a) (h1 : a ≤ 2 ^ 181) :
    ∃ d : ℤ, fin a / (1000.0 : F32) = fin d ∧ 0 ≤ d := by
  rw [lit_1000_0]
  have e : fin a / fin (16384000 * 2 ^ 135) =
      roundDiv (a * 2 ^ 149) (16384000 * 2 ^ 135 : ℤ).natAbs := by
    show (if (16384000 * 2 ^ 135 : ℤ) = 0 then
        (if a = 0 then nan else if 0 < a then pinf else ninf)
      else if 0 < (16384000 * 2 ^ 135 : ℤ) then
        roundDiv (a * 2 ^ 149) (16384000 * 2 ^ 135 : ℤ).natAbs
      else roundDiv (-(a * 2 ^ 149)) (16384000 * 2 ^ 135 : ℤ).natAbs) = _
    rw [if_neg (by norm_num), if_pos (by norm_num)]
  have hc : ((16384000 * 2 ^ 135 : ℤ).natAbs : ℤ) = 16384000 * 2 ^ 135 :=
    Int.natAbs_of_nonneg (by norm_num)
  have hcpos : 0 < (16384000 * 2 ^ 135 : ℤ).natAbs := by
    have : (0 : ℤ) < ((16384000 * 2 ^ 135 : ℤ).natAbs : ℤ) := by
      rw [hc]
      norm_num
    exact_mod_cast this
  have hle : roundDiv (a * 2 ^ 149) (16384000 * 2 ^ 135 : ℤ).natAbs ≤ fin (2 ^ 181) := by
    apply roundDiv_le hcpos rep_two_pow_181
    rw [hc]
    have h2 : a * 2 ^ 149 ≤ 2 ^ 181 * 2 ^ 149 := mul_le_mul_of_nonneg_right h1 (by positivity)
    have h3 : (2 : ℤ) ^ 181 * 2 ^ 149 ≤ 2 ^ 181 * (16384000 * 2 ^ 135) := by norm_num
    exact le_trans h2 h3
  have hnum : (0 : ℤ) ≤ a * 2 ^ 149 := by positivity
  rw [e]
  rcases roundDiv_cases (a * 2 ^ 149) (16384000 * 2 ^ 135 : ℤ).natAbs with
    h | h | ⟨m, hm, _, hpos, _⟩
  · rw [h.1] at hle
    exact absurd hle (not_pinf_le_fin _)
  · omega
  · exact ⟨m, hm, hpos hnum⟩

theorem clockValue_le_self {x : F32} (h : ClockValue x) : x ≤ x := by
  rcases h with rfl | ⟨t, rfl, _, _⟩
  · show le pinf pinf = true
    rfl
  · exact le_refl_fin t

theorem clockValue_add {x : F32} {d : ℤ} (h : ClockValue x) (hd : 0 ≤ d) :
    x ≤ x + fin d ∧ ClockValue (x + fin d) := by
  rcases h with rfl | ⟨t, rfl, hrep, ht⟩
  · have e : pinf + fin d = pinf := rfl
    rw [e]
    exact ⟨by show le pinf pinf = true; rfl, Or.inl rfl⟩
  · have e : fin t + fin d = roundDiv (t + d) 1 := rfl
    have hle : fin t ≤ roundDiv (t + d) 1 :=
      le_roundDiv (by norm_num) hrep (by push_cast; omega)
    rw [e]
    refine ⟨hle, ?_⟩
    rcases roundDiv_cases (t + d) 1 with h | h | ⟨m, hm, hmrep, hpos, _⟩
    · exact Or.inl h.1
    · omega
    · exact Or.inr ⟨m, hm, hmrep, hpos (by omega)⟩

end F32

theorem main_deltaTime_cases (currentTime lastTime : ℕ) :
    ∃ d : ℤ, Main.deltaTime currentTime lastTime = F32.fin d ∧ 0 ≤ d := by
  unfold Main.deltaTime
  obtain ⟨a, ha, h0, h1⟩ := F32.ofInt_natCast_cases
    ((currentTime % 2 ^ 32 + 2 ^ 32 - lastTime % 2 ^ 32) % 2 ^ 32)
    (Nat.mod_lt _ (by norm_num))
  rw [ha]
  exact F32.div_1000_cases h0 h1

theorem improved_deltaTime_cases (currentTime lastTime : ℕ) :
    ∃ d : ℤ, Improved.deltaTime currentTime lastTime = F32.fin d ∧ 0 ≤ d := by
  unfold Improved.deltaTime
  obtain ⟨a, ha, h0, h1⟩ := F32.ofInt_natCast_cases
    ((currentTime % 2 ^ 32 + 2 ^ 32 - lastTime % 2 ^ 32) % 2 ^ 32)
    (Nat.mod_lt _ (by norm_num))
  rw [ha]
  exact F32.div_1000_cases h0 h1

theorem main_frame_clock (inp : FrameInput) (L : Main.LoopState)
    (h : F32.ClockValue L.state.time) :
    L.state.time ≤ (Main.frame inp L).1.state.time ∧
      F32.ClockValue (Main.frame inp L).1.state.time := by
  have e : (Main.frame inp L).1.state.time =
      (Main.advance (Main.deltaTime inp.ticks L.lastTime) L.state).time :=
    main_handleEvents_time _ _
  rw [e]
  obtain ⟨d, hd, hd0⟩ := main_deltaTime_cases inp.ticks L.lastTime
  rw [hd]
  unfold Main.advance
  cases hp : L.state.paused
  · simp only [Bool.not_false, if_true]
    exact F32.clockValue_add h hd0
  · simp only [Bool.not_true, Bool.false_eq_true, if_false]
    exact ⟨F32.clockValue_le_self h, h⟩

theorem improved_frame_clock (inp : FrameInput) (L : Improved.LoopState)
    (h : F32.ClockValue L.state.time) :
    L.state.time ≤ (Improved.frame inp L).1.state.time ∧
      F32.ClockValue (Improved.frame inp L).1.state.time := by
  have e : (Improved.frame inp L).1.state.time =
      (Improved.advance (Improved.deltaTime inp.ticks L.lastTime) L.state).time :=
    improved_handleEvents_time _ _
  rw [e]
  obtain ⟨d, hd, hd0⟩ := improved_deltaTime_cases inp.ticks L.lastTime
  rw [hd]
  unfold Improved.advance
  cases hp : L.state.paused
  · simp only [Bool.not_false, if_true]
    exact F32.clockValue_add h hd0
  · simp only [Bool.not_true, Bool.false_eq_true, if_false]
    exact ⟨F32.clockValue_le_self h, h⟩

theorem main_mainLoop_clock (frames : List FrameInput) :
    ∀ L : Main.LoopState, F32.ClockValue L.state.time →
      F32.ClockValue (Main.mainLoop frames L).1.state.time := by
  induction frames with
  | nil => exact fun L h => h
  | cons f rest ih =>
    intro L h
    simp only [Main.mainLoop]
    split
    · exact ih _ (main_frame_clock f L h).2
    · exact h

theorem improved_mainLoop_clock (frames : List FrameInput) :
    ∀ L : Improved.LoopState, F32.ClockValue L.state.time →
      F32.ClockValue (Improved.mainLoop frames L).1.state.time := by
  induction frames with
  | nil => exact fun L h => h
  | cons f rest ih =>
    intro L h
    simp only [Improved.mainLoop]
    split
    · exact ih _ (improved_frame_clock f L h).2
    · exact h

theorem clockValue_zero : F32.ClockValue (0.0 : F32) :=
  Or.inr ⟨0, F32.lit_0_0, F32.rep_0, le_refl 0⟩

/-- C12: the simulation clock is monotonic, in both programs.  For every pair of tick
readings, taken modulo `2^32` (so also a reading that has wrapped around), the
`deltaTime` computed from the unsigned difference is a finite float `>= 0`; and in
every pass reached from the start of the loop through any sequence of passes, the
`time` after the pass is not less than the `time` before it. -/
theorem C12_clock_monotonic :
    ((∀ currentTime lastTime : ℕ, (0.0 : F32) ≤ Main.deltaTime currentTime lastTime) ∧
      (∀ (startTicks : ℕ) (frames : List FrameInput) (inp : FrameInput),
        (Main.mainLoop frames (Main.loopStart startTicks)).1.state.time ≤
          (Main.frame inp (Main.mainLoop frames (Main.loopStart startTicks)).1).1.state.time)) ∧
    ((∀ currentTime lastTime : ℕ, (0.0 : F32) ≤ Improved.deltaTime currentTime lastTime) ∧
      (∀ (startTicks : ℕ) (frames : List FrameInput) (inp : FrameInput),
        (Improved.mainLoop frames (Improved.loopStart startTicks)).1.state.time ≤
          (Improved.frame inp
            (Improved.mainLoop frames (Improved.loopStart startTicks)).1).1.state.time)) := by
  refine ⟨⟨?_, ?_⟩, ⟨?_, ?_⟩⟩
  · intro c l
    obtain ⟨d, hd, hd0⟩ := main_deltaTime_cases c l
    rw [hd, F32.lit_0_0]
    exact F32.le_fin_fin.2 hd0
  · intro st frames inp
    exact (main_frame_clock inp _ (main_mainLoop_clock frames _ clockValue_zero)).1
  · intro c l
    obtain ⟨d, hd, hd0⟩ := improved_deltaTime_cases c l
    rw [hd, F32.lit_0_0]
    exact F32.le_fin_fin.2 hd0
  · intro st frames inp
    exact (improved_frame_clock inp _ (improved_mainLoop_clock frames _ clockValue_zero)).1

/-! ### Order of input handling and dispatch -/

theorem main_handleEvents_append (es : List SDL_Event) (e : SDL_Event) (s : Main.AppState) :
    Main.handleEvents (es ++ [e]) s = Main.handleInput e (Main.handleEvents es s) := by
  unfold Main.handleEvents
  rw [List.foldl_append]
  rfl

theorem improved_handleEvents_append (es : List SDL_Event) (e : SDL_Event)
    (s : Improved.AppState) :
    Improved.handleEvents (es ++ [e]) s =
      Improved.handleInput e (Improved.handleEvents es s) := by
  unfold Improved.handleEvents
  rw [List.foldl_append]
  rfl

/-- C13: in every pass of the main loop of both programs, the values dispatched to the
kernel (spin, exposure, inclination, camera distance, and in `main_improved.cpp`
bounces and effective bloom strength) are those of the state after all events polled
in that pass have been handled, in order and none skipped (`handleEvents` over the
whole list, on the state left by the clock update); the state the pass leaves for
the next pass is that same state, so no event of the pass is applied after its
dispatch. -/
theorem C13_updates_applied_before_dispatch :
    ((∀ (inp : FrameInput) (L : Main.LoopState),
        (Main.frame inp L).1.state =
          Main.handleEvents inp.events
            (Main.advance (Main.deltaTime inp.ticks L.lastTime) L.state) ∧
        (Main.frame inp L).2 = Main.dispatch (Main.frame inp L).1.state ∧
        (Main.frame inp L).2.uniforms.uSpinParameter =
          (Main.frame inp L).1.state.spinParameter ∧
        (Main.frame inp L).2.uniforms.uExposure = (Main.frame inp L).1.state.exposure ∧
        (Main.frame inp L).2.uniforms.uInclination =
          (Main.frame inp L).1.state.inclination ∧
        (Main.frame inp L).2.uniforms.uCameraDistance =
          (Main.frame inp L).1.state.cameraDistance) ∧
      (∀ (s : Main.AppState), Main.handleEvents [] s = s) ∧
      (∀ (es : List SDL_Event) (e : SDL_Event) (s : Main.AppState),
        Main.handleEvents (es ++ [e]) s = Main.handleInput e (Main.handleEvents es s))) ∧
    ((∀ (inp : FrameInput) (L : Improved.LoopState),
        (Improved.frame inp L).1.state =
          Improved.handleEvents inp.events
            (Improved.advance (Improved.deltaTime inp.ticks L.lastTime) L.state) ∧
        (Improved.frame inp L).2 = Improved.dispatch (Improved.frame inp L).1.state ∧
        (Improved.frame inp L).2.uniforms.uSpinParameter =
          (Improved.frame inp L).1.state.spinParameter ∧
        (Improved.frame inp L).2.uniforms.uExposure =
          (Improved.frame inp L).1.state.exposure ∧
        (Improved.frame inp L).2.uniforms.uInclination =
          (Improved.frame inp L).1.state.inclination ∧
        (Improved.frame inp L).2.uniforms.uCameraDistance =
          (Improved.frame inp L).1.state.cameraDistance ∧
        (Improved.frame inp L).2.uniforms.uMaxBounces =
          (Improved.frame inp L).1.state.maxBounces ∧
        (Improved.frame inp L).2.uniforms.uBloomStrength =
          (if (Improved.frame inp L).1.state.enableBloom then
            (Improved.frame inp L).1.state.bloomStrength else 0.0)) ∧
      (∀ (s : Improved.AppState), Improved.handleEvents [] s = s) ∧
      (∀ (es : List SDL_Event) (e : SDL_Event) (s : Improved.AppState),
        Improved.handleEvents (es ++ [e]) s =
          Improved.handleInput e (Improved.handleEvents es s))) :=
  ⟨⟨fun _ _ => ⟨rfl, rfl, rfl, rfl, rfl, rfl⟩, fun _ => rfl, main_handleEvents_append⟩,
   ⟨fun _ _ => ⟨rfl, rfl, rfl, rfl, rfl, rfl, rfl, rfl⟩, fun _ => rfl,
    improved_handleEvents_append⟩⟩

/-! ### The two handlers agree on what they share -/

/-- C15: for every pre-state and every event among quit, Escape, Space, Up, Down, A,
D, W, S, Q, E, `handleInput` of `main_improved.cpp` updates the shared fields (time,
spin, exposure, inclination, camera distance, paused, running) exactly as
`handleInput` of `main.cpp` does, and leaves `maxBounces`, `bloomStrength`,
`enableBloom` and `showHelp` unchanged. -/
theorem C15_improved_refines_main (s : Improved.AppState) (e : SDL_Event)
    (he : e ∈ sharedEvents) :
    Improved.toMain (Improved.handleInput e s) = Main.handleInput e (Improved.toMain s) ∧
    (Improved.handleInput e s).maxBounces = s.maxBounces ∧
    (Improved.handleInput e s).bloomStrength = s.bloomStrength ∧
    (Improved.handleInput e s).enableBloom = s.enableBloom ∧
    (Improved.handleInput e s).showHelp = s.showHelp := by
  simp only [sharedEvents, List.mem_cons, List.mem_singleton, List.not_mem_nil, or_false]
    at he
  rcases he with h | h | h | h | h | h | h | h | h | h | h <;> subst h <;>
    exact ⟨rfl, rfl, rfl, rfl, rfl⟩

/-- C15 (witness): a press of D in the start-up state of `main_improved.cpp`. -/
theorem C15_improved_refines_main_witness :
    key .SDLK_d ∈ sharedEvents ∧
    Improved.toMain (Improved.handleInput (key .SDLK_d) Improved.state) =
      Main.handleInput (key .SDLK_d) (Improved.toMain Improved.state) :=
  ⟨by decide, (C15_improved_refines_main Improved.state (key .SDLK_d) (by decide)).1⟩

/-! ### What reset leaves alone -/

/-- C16: the reset command (key R) of `main_improved.cpp` leaves `time`, `paused`,
`running`, `enableBloom` and `showHelp` unchanged.  So in a state with bloom disabled
the bloom strength handed to the kernel after reset is `0`, not the default `0.5`;
and after a reset while paused the state is still paused and the clock update of
the next pass leaves `time` at its value. -/
theorem C16_reset_keeps_flags_and_clock (s : Improved.AppState) :
    ((Improved.handleInput (key .SDLK_r) s).time = s.time ∧
      (Improved.handleInput (key .SDLK_r) s).paused = s.paused ∧
      (Improved.handleInput (key .SDLK_r) s).running = s.running ∧
      (Improved.handleInput (key .SDLK_r) s).enableBloom = s.enableBloom ∧
      (Improved.handleInput (key .SDLK_r) s).showHelp = s.showHelp) ∧
    (s.enableBloom = false →
      (Improved.dispatch (Improved.handleInput (key .SDLK_r) s)).uniforms.uBloomStrength
          = 0.0 ∧
        (Improved.dispatch (Improved.handleInput (key .SDLK_r) s)).uniforms.uBloomStrength
          ≠ 0.5) ∧
    (s.paused = true →
      (Improved.handleInput (key .SDLK_r) s).paused = true ∧
      ∀ dt : F32,
        (Improved.advance dt (Improved.handleInput (key .SDLK_r) s)).time = s.time) := by
  refine ⟨⟨rfl, rfl, rfl, rfl, rfl⟩, ?_, ?_⟩
  · intro h
    have e : (Improved.dispatch
        (Improved.handleInput (key .SDLK_r) s)).uniforms.uBloomStrength = 0.0 := by
      simp [Improved.dispatch, Improved.handleInput, h]
    rw [e]
    exact ⟨rfl, by decide⟩
  · intro h
    refine ⟨h, fun dt => ?_⟩
    rw [improved_advance_paused dt (Improved.handleInput (key .SDLK_r) s) h]
    rfl

/-- C16 (witness): the start-up state with bloom switched off and the animation
paused, then reset. -/
theorem C16_reset_keeps_flags_and_clock_witness :
    (Improved.dispatch (Improved.handleInput (key .SDLK_r)
      { Improved.state with enableBloom := false, paused := true })).uniforms.uBloomStrength
        = 0.0 ∧
    (Improved.advance 0.5 (Improved.handleInput (key .SDLK_r)
      { Improved.state with enableBloom := false, paused := true })).time
        = Improved.state.time :=
  ⟨((C16_reset_keeps_flags_and_clock
      { Improved.state with enableBloom := false, paused := true }).2.1 rfl).1,
   ((C16_reset_keeps_flags_and_clock
      { Improved.state with enableBloom := false, paused := true }).2.2 rfl).2 0.5⟩

/-! ### Work groups -/

theorem groupCount_eq {n : ℤ} (h1 : 1 ≤ n) (h2 : n + 15 < 2 ^ 31) :
    groupCount n = (n + 15) / 16 := by
  unfold groupCount wrapInt
  have e : (n + 15 + 2 ^ 31) % 2 ^ 32 - 2 ^ 31 = n + 15 := by omega
  rw [e]
  exact Int.tdiv_eq_ediv (by omega) (by norm_num)

/-- C17: for every image dimension `n >= 1` with `n + 15` not overflowing `int`, the
work-group count `g = (n + 15) / 16` is the least integer with `16 * g >= n`: the
groups cover every pixel (`n <= 16 * g`), one group fewer would not
(`16 * (g - 1) < n`), and no integer count below `g` covers.  For the fixed
`1920 x 1080` resolution all three programs dispatch `120 x 68 x 1` groups. -/
theorem C17_work_group_count :
    (∀ n : ℤ, 1 ≤ n → n + 15 < 2 ^ 31 →
      groupCount n = (n + 15) / 16 ∧ n ≤ 16 * groupCount n ∧
        16 * (groupCount n - 1) < n ∧ ∀ g : ℤ, n ≤ 16 * g → groupCount n ≤ g) ∧
    (∀ s : Main.AppState, (Main.dispatch s).groups = (120, 68, 1)) ∧
    (∀ s : Improved.AppState, (Improved.dispatch s).groups = (120, 68, 1)) ∧
    Linux.dispatch.groups = (120, 68, 1) := by
  have gw : groupCount 1920 = 120 := by decide
  have gh : groupCount 1080 = 68 := by decide
  refine ⟨?_, fun _ => ?_, fun _ => ?_, ?_⟩
  rotate_left
  · show (groupCount Main.WINDOW_WIDTH, groupCount Main.WINDOW_HEIGHT, (1 : ℤ)) = (120, 68, 1)
    unfold Main.WINDOW_WIDTH Main.WINDOW_HEIGHT
    rw [gw, gh]
  · show (groupCount Improved.WINDOW_WIDTH, groupCount Improved.WINDOW_HEIGHT, (1 : ℤ))
      = (120, 68, 1)
    unfold Improved.WINDOW_WIDTH Improved.WINDOW_HEIGHT
    rw [gw, gh]
  · decide
  intro n h1 h2
  rw [groupCount_eq h1 h2]
  refine ⟨rfl, by omega, by omega, fun g hg => by omega⟩

/-- C17 (witness): the width `1920` gives `120` groups and the height `1080` gives
`68`, the least counts that cover them. -/
theorem C17_work_group_count_witness :
    (groupCount 1920 = 120 ∧ (1920 : ℤ) ≤ 16 * 120 ∧ (16 : ℤ) * (120 - 1) < 1920) ∧
    (groupCount 1080 = 68 ∧ (1080 : ℤ) ≤ 16 * 68 ∧ (16 : ℤ) * (68 - 1) < 1080) := by
  have h1 := C17_work_group_count.1 1920 (by norm_num) (by norm_num)
  have h2 := C17_work_group_count.1 1080 (by norm_num) (by norm_num)
  have e1 : groupCount 1920 = 120 := by decide
  have e2 : groupCount 1080 = 68 := by decide
  rw [e1] at h1
  rw [e2] at h2
  exact ⟨⟨e1, h1.2.1, h1.2.2.1⟩, ⟨e2, h2.2.1, h2.2.2.1⟩⟩

/-! ### Samples of the still frame -/

namespace F32

theorem le_floorGrid {n a : ℕ} (hn : 2 ^ (log2 n - 23) ∣ n) (h : n ≤ a) : n ≤ floorGrid a := by
  unfold floorGrid
  have hmono : log2 n - 23 ≤ log2 a - 23 := Nat.sub_le_sub_right (log2_mono h) 23
  rcases Nat.eq_or_lt_of_le hmono with heq | hlt
  · rw [← heq]
    calc n = n / 2 ^ (log2 n - 23) * 2 ^ (log2 n - 23) := (Nat.div_mul_cancel hn).symm
      _ ≤ a / 2 ^ (log2 n - 23) * 2 ^ (log2 n - 23) :=
          Nat.mul_le_mul_right _ (Nat.div_le_div_right h)
  · have ha : 0 < a := by
      rcases Nat.eq_zero_or_pos a with h0 | hpos
      · rw [h0, log2_zero] at hlt
        omega
      · exact hpos
    obtain ⟨ha1, _⟩ := log2_spec a ha
    have hn1 : n < 2 ^ (log2 a - 23 + 23) := by
      rcases Nat.eq_zero_or_pos n with h0 | hpos
      · rw [h0]
        exact Nat.pow_pos (by norm_num)
      · obtain ⟨_, hn2⟩ := log2_spec n hpos
        exact lt_of_lt_of_le hn2 (Nat.pow_le_pow_right (by norm_num) (by omega))
    have e1 : log2 a - 23 + 23 = log2 a := by omega
    have hq : 2 ^ 23 ≤ a / 2 ^ (log2 a - 23) := by
      rw [Nat.le_div_iff_mul_le (Nat.pow_pos (by norm_num)), ← pow_add]
      have : 23 + (log2 a - 23) = log2 a := by omega
      rw [this]
      exact ha1
    calc n ≤ 2 ^ (log2 a - 23 + 23) := hn1.le
      _ = 2 ^ 23 * 2 ^ (log2 a - 23) := by rw [pow_add, Nat.mul_comm]
      _ ≤ a / 2 ^ (log2 a - 23) * 2 ^ (log2 a - 23) := Nat.mul_le_mul_right _ hq

theorem sample_upper_check : ∀ j : ℕ, j < 256 → 0 < j →
    roundNat (floorGrid ((j * 2 ^ 149 - 1) / 255) * (255 * 2 ^ 149)) (2 ^ 149)
      < j * 2 ^ 149 := by decide

theorem sample_level_check : ∀ k : ℕ, k < 256 →
    roundNat (k * 2 ^ 149) 1 = k * 2 ^ 149 := by decide

theorem sample_one_check :
    roundNat (2 ^ 149 * (255 * 2 ^ 149)) (2 ^ 149) = 255 * 2 ^ 149 := by decide

theorem ofInt_255 : ofInt 255 = fin (255 * 2 ^ 149) := by decide

theorem roundNat_mul255_bounds {N : ℕ} (hrep : 2 ^ (log2 N - 23) ∣ N) (hN : N ≤ 2 ^ 149) :
    255 * N / 2 ^ 149 * 2 ^ 149 ≤ roundNat (N * (255 * 2 ^ 149)) (2 ^ 149) ∧
    roundNat (N * (255 * 2 ^ 149)) (2 ^ 149) < (255 * N / 2 ^ 149 + 1) * 2 ^ 149 := by
  have hk : 255 * N / 2 ^ 149 ≤ 255 := by
    have : 255 * N ≤ 255 * 2 ^ 149 := Nat.mul_le_mul_left _ hN
    calc 255 * N / 2 ^ 149 ≤ 255 * 2 ^ 149 / 2 ^ 149 := Nat.div_le_div_right this
      _ = 255 := Nat.mul_div_cancel _ (Nat.pow_pos (by norm_num))
  have hlow : 255 * N / 2 ^ 149 * 2 ^ 149 ≤ 255 * N := Nat.div_mul_le_self _ _
  constructor
  · rw [← sample_level_check (255 * N / 2 ^ 149) (by omega)]
    apply roundNat_mono (by norm_num) (Nat.pow_pos (by norm_num))
    calc 255 * N / 2 ^ 149 * 2 ^ 149 * 2 ^ 149 ≤ 255 * N * 2 ^ 149 :=
          Nat.mul_le_mul_right _ hlow
      _ = N * (255 * 2 ^ 149) * 1 := by ring
  · rcases Nat.eq_or_lt_of_le hk with h255 | hlt
    · have hN2 : N = 2 ^ 149 := by
        have : 255 * 2 ^ 149 ≤ 255 * N := by
          rw [h255] at hlow
          exact hlow
        omega
      rw [h255, hN2, sample_one_check]
      norm_num
    · have hj : 255 * N / 2 ^ 149 + 1 < 256 := by omega
      have hlt2 : 255 * N < (255 * N / 2 ^ 149 + 1) * 2 ^ 149 := by
        have := Nat.lt_succ_self (255 * N / 2 ^ 149)
        exact (Nat.div_lt_iff_lt_mul (Nat.pow_pos (by norm_num))).1 this
      have hle : N ≤ ((255 * N / 2 ^ 149 + 1) * 2 ^ 149 - 1) / 255 := by
        rw [Nat.le_div_iff_mul_le (by norm_num)]
        omega
      have hg := le_floorGrid hrep hle
      refine lt_of_le_of_lt ?_ (sample_upper_check _ hj (by omega))
      apply roundNat_mono (Nat.pow_pos (by norm_num)) (Nat.pow_pos (by norm_num))
      exact Nat.mul_le_mul_right _ (Nat.mul_le_mul_right _ hg)

end F32

theorem linux_sample_eq {N : ℕ} (hrep : F32.Representable (N : ℤ)) (hN : N ≤ 2 ^ 149) :
    Linux.sample (F32.fin (N : ℤ)) = 255 * N / 2 ^ 149 := by
  have hdvd : 2 ^ (F32.log2 N - 23) ∣ N := by
    have := hrep.1
    rwa [Int.natAbs_ofNat] at this
  obtain ⟨hlo, hhi⟩ := F32.roundNat_mul255_bounds hdvd hN
  have hk : 255 * N / 2 ^ 149 ≤ 255 := by
    have : 255 * N ≤ 255 * 2 ^ 149 := Nat.mul_le_mul_left _ hN
    calc 255 * N / 2 ^ 149 ≤ 255 * 2 ^ 149 / 2 ^ 149 := Nat.div_le_div_right this
      _ = 255 := Nat.mul_div_cancel _ (Nat.pow_pos (by norm_num))
  have hcast : (N : ℤ) * (255 * 2 ^ 149) = ((N * (255 * 2 ^ 149) : ℕ) : ℤ) := by
    push_cast
    ring
  have hprod : F32.fin (N : ℤ) * F32.ofInt 255 =
      F32.roundDiv ((N : ℤ) * (255 * 2 ^ 149)) (2 ^ 149) := by
    rw [F32.ofInt_255]
    rfl
  have hq : F32.roundNat (N * (255 * 2 ^ 149)) (2 ^ 149) / 2 ^ 149 = 255 * N / 2 ^ 149 :=
    Nat.div_eq_of_lt_le hlo hhi
  have hmax : ¬ F32.maxFinite < F32.roundNat (N * (255 * 2 ^ 149)) (2 ^ 149) := by
    have h256 : (255 * N / 2 ^ 149 + 1) * 2 ^ 149 ≤ 256 * 2 ^ 149 :=
      Nat.mul_le_mul_right _ (by omega)
    have hm : 256 * 2 ^ 149 ≤ F32.maxFinite := by decide
    omega
  unfold Linux.sample
  rw [hprod, hcast]
  unfold F32.roundDiv
  rw [Int.natAbs_ofNat, if_neg hmax, if_neg (by omega)]
  unfold Linux.toUChar
  simp only []
  have ht : Int.tdiv ((F32.roundNat (N * (255 * 2 ^ 149)) (2 ^ 149) : ℕ) : ℤ) (2 ^ 149) =
      ((255 * N / 2 ^ 149 : ℕ) : ℤ) := by
    rw [Int.tdiv_eq_ediv (Int.ofNat_nonneg _) (by norm_num), ← hq]
    norm_cast
  rw [ht, if_pos ⟨by omega, by omega⟩]
  omega

theorem unit_interval_cases {v : F32} (hv : F32.IsBinary32 v) (h0 : (0.0 : F32) ≤ v)
    (h1 : v ≤ (1.0 : F32)) :
    ∃ N : ℕ, v = F32.fin (N : ℤ) ∧ F32.Representable (N : ℤ) ∧ N ≤ 2 ^ 149 := by
  rw [F32.lit_0_0] at h0
  rw [F32.lit_1_0] at h1
  obtain ⟨n, rfl, hn0, hn1⟩ := F32.exists_fin_of_le_of_le h0 h1
  obtain ⟨N, rfl⟩ := Int.eq_ofNat_of_zero_le hn0
  exact ⟨N, rfl, hv, by exact_mod_cast hn1⟩

theorem linux_toUChar_wraps {m : ℤ} (h1 : 0 ≤ m) (h2 : m < 2 ^ 31 * 2 ^ 149) :
    (Linux.toUChar (F32.fin m) : ℤ) = m / 2 ^ 149 % 256 := by
  unfold Linux.toUChar
  simp only []
  rw [Int.tdiv_eq_ediv h1 (by norm_num), if_pos ⟨by omega, by omega⟩]
  exact Int.toNat_of_nonneg (Int.emod_nonneg _ (by norm_num))

/-- C18: in the still-frame export, for every `float` channel value `v` with
`0 <= v <= 1` the written sample `(unsigned char)(v * 255)` is `floor(255 * v)`, the
floor of the exact product (the rounding of the `float` product never reaches the
next integer); it lies in `0..255`, is non-decreasing in `v`, and maps `0` to `0` and
`1` to `255`.  The code applies no clamp: a product whose truncation `t` is at least
`256` is outside `unsigned char`, and the conversion as modelled (low byte of the
32-bit truncation) writes `t mod 256`, for `256 <= t < 511` a value below `255`; a
radiance of `1.5` is written as `126`. -/
theorem C18_sample_is_floor (v : F32) (hv : F32.IsBinary32 v) (h0 : (0.0 : F32) ≤ v)
    (h1 : v ≤ (1.0 : F32)) :
    (∃ q : ℚ, F32.toRat v = some q ∧ 0 ≤ q ∧ q ≤ 1 ∧ (Linux.sample v : ℤ) = ⌊255 * q⌋) ∧
    Linux.sample v ≤ 255 ∧
    (∀ w : F32, F32.IsBinary32 w → v ≤ w → w ≤ (1.0 : F32) →
      Linux.sample v ≤ Linux.sample w) ∧
    Linux.sample 0.0 = 0 ∧ Linux.sample 1.0 = 255 ∧
    (∀ m : ℤ, 256 * 2 ^ 149 ≤ m → m < 2 ^ 31 * 2 ^ 149 →
      (Linux.toUChar (F32.fin m) : ℤ) = m / 2 ^ 149 % 256 ∧
      (m < 511 * 2 ^ 149 → Linux.toUChar (F32.fin m) < 255)) ∧
    Linux.sample 1.5 = 126 := by
  obtain ⟨N, rfl, hrep, hN⟩ := unit_interval_cases hv h0 h1
  have hs := linux_sample_eq hrep hN
  have hk : 255 * N / 2 ^ 149 ≤ 255 := by
    have : 255 * N ≤ 255 * 2 ^ 149 := Nat.mul_le_mul_left _ hN
    calc 255 * N / 2 ^ 149 ≤ 255 * 2 ^ 149 / 2 ^ 149 := Nat.div_le_div_right this
      _ = 255 := Nat.mul_div_cancel _ (Nat.pow_pos (by norm_num))
  refine ⟨⟨((N : ℤ) : ℚ) / 2 ^ 149, rfl, ?_, ?_, ?_⟩, ?_, ?_, by decide, by decide, ?_,
    by decide⟩
  · positivity
  · rw [div_le_one (by positivity)]
    exact_mod_cast hN
  · rw [hs]
    have e : (255 : ℚ) * (((N : ℤ) : ℚ) / 2 ^ 149) =
        (((255 * N : ℕ) : ℤ) : ℚ) / (((2 ^ 149 : ℕ) : ℕ) : ℚ) := by
      push_cast
      ring
    rw [e, Rat.floor_intCast_div_natCast]
    norm_cast
  · rw [hs]
    exact hk
  · intro w hw hvw hw1
    have hw0 : (0.0 : F32) ≤ w := by
      rw [F32.lit_0_0]
      cases w with
      | fin n =>
        have := F32.le_fin_fin.1 hvw
        exact F32.le_fin_fin.2 (by omega)
      | pinf => rw [F32.lit_1_0] at hw1; exact absurd hw1 (F32.not_pinf_le_fin _)
      | ninf => exact absurd hvw (F32.not_fin_le_ninf _)
      | nan => exact absurd hvw (F32.not_fin_le_nan _)
    obtain ⟨M, rfl, hrepM, hM⟩ := unit_interval_cases hw hw0 hw1
    rw [hs, linux_sample_eq hrepM hM]
    have hNM : N ≤ M := by exact_mod_cast F32.le_fin_fin.1 hvw
    exact Nat.div_le_div_right (Nat.mul_le_mul_left _ hNM)
  · intro m hm1 hm2
    have hw := linux_toUChar_wraps (by omega) hm2
    refine ⟨hw, fun hm3 => ?_⟩
    have : (Linux.toUChar (F32.fin m) : ℤ) < 255 := by
      rw [hw]
      omega
    exact_mod_cast this

/-- C18 (witness): the channel value `0.5`, whose product `127.5` is written as
`127`. -/
theorem C18_sample_is_floor_witness :
    F32.IsBinary32 (0.5 : F32) ∧ (0.0 : F32) ≤ (0.5 : F32) ∧ (0.5 : F32) ≤ (1.0 : F32) ∧
    Linux.sample 0.5 = 127 ∧ Linux.sample 0.5 ≤ 255 ∧
    (∃ q : ℚ, F32.toRat (0.5 : F32) = some q ∧ 0 ≤ q ∧ q ≤ 1 ∧
      (Linux.sample 0.5 : ℤ) = ⌊255 * q⌋) := by
  have h : F32.IsBinary32 (0.5 : F32) := by
    rw [F32.lit_0_5]
    show F32.Representable (2 ^ 148)
    decide
  exact ⟨h, by decide, by decide, by decide,
    (C18_sample_is_floor 0.5 h (by decide) (by decide)).2.1,
    (C18_sample_is_floor 0.5 h (by decide) (by decide)).1⟩

/-! ### The integrator terminates within its step budget -/

theorem integrator_run_terminal {P G : Type} (I : Integrator P G) (p : P) (fuel : ℕ)
    (ray : Ray G) (h : ray.status ≠ RayStatus.integrating) : I.run p fuel ray = ray := by
  cases fuel with
  | zero => rfl
  | succ fuel =>
    unfold Integrator.run
    rw [if_neg h]

theorem integrator_step_cases {P G : Type} (I : Integrator P G) (p : P) (ray : Ray G)
    (h : ray.status = RayStatus.integrating) :
    ((I.step p ray).status ≠ RayStatus.integrating ∧ (I.step p ray).steps = ray.steps) ∨
    ((I.step p ray).status = RayStatus.integrating ∧ (I.step p ray).steps = ray.steps + 1 ∧
      ray.steps + 1 ≤ I.maxSteps) := by
  unfold Integrator.step
  rw [h]
  simp only []
  by_cases c1 : I.belowHorizon p ray.geo = true
  · rw [if_pos c1]
    exact Or.inl ⟨by simp, rfl⟩
  rw [if_neg c1]
  by_cases c2 : I.beyondCutoff p ray.geo = true
  · rw [if_pos c2]
    exact Or.inl ⟨by simp, rfl⟩
  rw [if_neg c2]
  by_cases c3 : I.crossesDisk p ray.geo = true ∧ ray.bounces = 0
  · rw [if_pos c3]
    exact Or.inl ⟨by simp, rfl⟩
  rw [if_neg c3]
  by_cases c4 : I.maxSteps ≤ ray.steps
  · rw [if_pos c4]
    exact Or.inl ⟨by simp, rfl⟩
  rw [if_neg c4]
  exact Or.inr ⟨rfl, rfl, by omega⟩

theorem integrator_run_terminates {P G : Type} (I : Integrator P G) (p : P) :
    ∀ (fuel : ℕ) (ray : Ray G), ray.steps ≤ I.maxSteps →
      I.maxSteps + 1 ≤ ray.steps + fuel →
      (I.run p fuel ray).status ≠ RayStatus.integrating ∧
        (I.run p fuel ray).steps ≤ I.maxSteps := by
  intro fuel
  induction fuel with
  | zero =>
    intro ray h1 h2
    omega
  | succ fuel ih =>
    intro ray h1 h2
    unfold Integrator.run
    by_cases hst : ray.status = RayStatus.integrating
    · rw [if_pos hst]
      rcases integrator_step_cases I p ray hst with ⟨ht, hsteps⟩ | ⟨hi, hsteps, hle⟩
      · rw [integrator_run_terminal I p fuel _ ht]
        exact ⟨ht, by omega⟩
      · exact ih _ (by omega) (by omega)
    · rw [if_neg hst]
      exact ⟨hst, h1⟩

/-- C14: for every pixel and all simulation parameters (so for every spin in
`[0, 0.998)` and every valid inclination and camera distance), whatever the numerics
of a step and of the termination tests, the integrator of the specification
terminates within the step budget: the integration ends in a terminal status after
at most `maxSteps` integration steps, allowing more turns changes nothing, and a ray
that has used up the budget without meeting conditions 1 to 3 is given the status
escaped. -/
theorem C14_integrator_terminates {P G : Type} (I : Integrator P G) (p : P)
    (maxBounces : ℕ) (pixel : ℕ × ℕ) :
    (I.integrate p maxBounces pixel).status ≠ RayStatus.integrating ∧
    (I.integrate p maxBounces pixel).steps ≤ I.maxSteps ∧
    (∀ fuel : ℕ, I.maxSteps + 1 ≤ fuel →
      I.run p fuel (I.start p maxBounces pixel) = I.integrate p maxBounces pixel) ∧
    (∀ ray : Ray G, ray.status = RayStatus.integrating → I.maxSteps ≤ ray.steps →
      I.belowHorizon p ray.geo = false → I.beyondCutoff p ray.geo = false →
      ¬ (I.crossesDisk p ray.geo = true ∧ ray.bounces = 0) →
      (I.step p ray).status = RayStatus.escaped) := by
  have hterm := integrator_run_terminates I p (I.maxSteps + 1) (I.start p maxBounces pixel)
    (Nat.zero_le _) (by simp [Integrator.start])
  refine ⟨hterm.1, hterm.2, ?_, ?_⟩
  · intro fuel hfuel
    obtain ⟨k, rfl⟩ := Nat.exists_eq_add_of_le hfuel
    unfold Integrator.integrate
    generalize I.start p maxBounces pixel = ray0 at hterm ⊢
    clear hfuel
    induction k with
    | zero => rfl
    | succ k ih =>
      have key : ∀ (n : ℕ) (ray : Ray G),
          (I.run p n ray).status ≠ RayStatus.integrating →
          I.run p (n + 1) ray = I.run p n ray := by
        intro n
        induction n with
        | zero =>
          intro ray h
          exact integrator_run_terminal I p 1 ray h
        | succ n ihn =>
          intro ray h
          show (if ray.status = RayStatus.integrating then
            I.run p (n + 1) (I.step p ray) else ray) = I.run p (n + 1) ray
          by_cases hst : ray.status = RayStatus.integrating
          · rw [if_pos hst]
            have e : I.run p (n + 1) ray = I.run p n (I.step p ray) := by
              show (if ray.status = RayStatus.integrating then
                I.run p n (I.step p ray) else ray) = _
              rw [if_pos hst]
            rw [e] at h ⊢
            exact ihn _ h
          · rw [if_neg hst]
            exact (integrator_run_terminal I p (n + 1) ray hst).symm
      rw [← ih]
      have e2 : I.maxSteps + 1 + (k + 1) = (I.maxSteps + 1 + k) + 1 := by ring
      rw [e2]
      apply key
      rw [ih]
      exact hterm.1
  · intro ray hst hsteps h1 h2 h3
    unfold Integrator.step
    rw [hst]
    simp only [h1, h2, Bool.false_eq_true, if_false]
    rw [if_neg h3, if_pos hsteps]

/-- C14 (witness): an integrator that never meets conditions 1 to 3, with a budget of
four steps: its ray ends escaped after exactly four steps. -/
theorem C14_integrator_terminates_witness :
    (runawayIntegrator.integrate () 3 (10, 20)).status = RayStatus.escaped ∧
    (runawayIntegrator.integrate () 3 (10, 20)).steps = 4 ∧
    (runawayIntegrator.integrate () 3 (10, 20)).status ≠ RayStatus.integrating ∧
    (runawayIntegrator.integrate () 3 (10, 20)).steps ≤ runawayIntegrator.maxSteps :=
  ⟨by decide, by decide,
    (C14_integrator_terminates runawayIntegrator () 3 (10, 20)).1,
    (C14_integrator_terminates runawayIntegrator () 3 (10, 20)).2.1⟩
